import Mathlib

/-!
Verification development for the jedidb indexing-and-consistency engine.

The Python source is shallowly embedded: pure helper functions from
`jedidb/utils.py` and `jedidb/core/analyzer.py` become Lean functions on
`List Char`, and the DuckDB-backed store from `jedidb/core/database.py` and
`jedidb/core/indexer.py` becomes a record of row lists plus per-table
identity counters, with every mutation made explicit.
-/

namespace JediDB

/-! ## Path matcher (`jedidb/utils.py`) -/

/-- Python `c in s` membership test on strings, modelled on `List Char`. -/
def hasChar (c : Char) : List Char → Bool
  | [] => false
  | d :: rest => c == d || hasChar c rest

/-- Python `s.startswith(pre)`. -/
def startsW : List Char → List Char → Bool
  | [], _ => true
  | _ :: _, [] => false
  | a :: as, b :: bs => a == b && startsW as bs

/-- Python `s.endswith(suf)`. -/
def endsW (suf p : List Char) : Bool :=
  startsW suf.reverse p.reverse

/-- `expand_pattern` from `jedidb/utils.py`: expand a simplified pattern to a
full glob pattern. -/
def expand_pattern (p : List Char) : List Char :=
  if hasChar '/' p then
    if endsW ['/'] p then
      p ++ ['*', '*']
    else if endsW ['.', 'p', 'y'] p then
      if ¬ startsW ['*', '*', '/'] p ∧ ¬ startsW ['/'] p then
        ['*', '*', '/'] ++ p
      else p
    else if hasChar '*' p then
      p
    else
      p ++ ['/', '*', '*']
  else
    if hasChar '*' p then
      (if ¬ startsW ['*', '*', '/'] p then ['*', '*', '/'] else []) ++ p ++
        (if ¬ endsW ['.', 'p', 'y'] p then ['.', 'p', 'y'] else [])
    else if endsW ['_'] p then
      ['*', '*', '/'] ++ p ++ ['*', '.', 'p', 'y']
    else if startsW ['_'] p then
      ['*', '*', '/', '*'] ++ p ++ ['.', 'p', 'y']
    else
      ['*', '*', '/'] ++ p ++ ['/', '*', '*']

/-- One token of the regular expression built by `glob_match`. -/
inductive GlobTok where
  | anyStar
  | slashOpt
  | star
  | qmark
  | lit (c : Char)
deriving DecidableEq, Repr

/-- The token-building loop of `glob_match`: `**` becomes `.*` (plus an
optional `/` when one follows), `*` becomes `[^/]*`, `?` becomes `[^/]`, and
every other character (escaped or not) matches only itself. -/
def glob_tokens : List Char → List GlobTok
  | '*' :: '*' :: '/' :: rest => .anyStar :: .slashOpt :: glob_tokens rest
  | '*' :: '*' :: rest => .anyStar :: glob_tokens rest
  | '*' :: rest => .star :: glob_tokens rest
  | '?' :: rest => .qmark :: glob_tokens rest
  | c :: rest => .lit c :: glob_tokens rest
  | [] => []

/-- Full-match semantics of the built regex (`re.match` with `^...$`). -/
def tokMatch : List GlobTok → List Char → Bool
  | [], s => s.isEmpty
  | .anyStar :: ts, s =>
      (List.range (s.length + 1)).any fun k => tokMatch ts (s.drop k)
  | .slashOpt :: ts, s =>
      tokMatch ts s ||
        (match s with
         | '/' :: s2 => tokMatch ts s2
         | _ => false)
  | .star :: ts, s =>
      (List.range (s.length + 1)).any fun k =>
        (s.take k).all (fun c => ! (c == '/')) && tokMatch ts (s.drop k)
  | .qmark :: ts, s =>
      match s with
      | c :: s2 => (! (c == '/')) && tokMatch ts s2
      | [] => false
  | .lit c :: ts, s =>
      match s with
      | d :: s2 => c == d && tokMatch ts s2
      | [] => false

/-- `glob_match` from `jedidb/utils.py`. -/
def glob_match (path pattern : List Char) : Bool :=
  tokMatch (glob_tokens pattern) path

/-- Split a path or pattern into `/`-separated segments. -/
def splitSlash : List Char → List (List Char)
  | [] => [[]]
  | '/' :: rest => [] :: splitSlash rest
  | c :: rest =>
      match splitSlash rest with
      | seg :: segs => (c :: seg) :: segs
      | [] => [[c]]

/-- Matching of a single glob segment (no `**`) against one path segment,
per the spec's reading: `*` is zero or more non-separator characters, `?`
one non-separator character, anything else literal. -/
def segMatchOne : List Char → List Char → Bool
  | [], s => s.isEmpty
  | '*' :: ps, s =>
      (List.range (s.length + 1)).any fun k => segMatchOne ps (s.drop k)
  | '?' :: ps, s =>
      match s with
      | _ :: s2 => segMatchOne ps s2
      | [] => false
  | p :: ps, s =>
      match s with
      | c :: s2 => p == c && segMatchOne ps s2
      | [] => false

/-- Segment-level glob semantics following the spec's words: a `**` pattern
segment matches zero or more whole path segments; every other pattern
segment matches exactly one path segment. Written only to be compared with
`glob_match`, which is translated from the source. -/
def spec_glob_match (path pattern : List Char) : Bool :=
  go (splitSlash pattern) (splitSlash path)
where
  go : List (List Char) → List (List Char) → Bool
    | [], segs => segs.isEmpty
    | pseg :: ps, segs =>
        if pseg = ['*', '*'] then
          (List.range (segs.length + 1)).any fun k => go ps (segs.drop k)
        else
          match segs with
          | seg :: rest => segMatchOne pseg seg && go ps rest
          | [] => false

/-! ## Reference context extraction (`jedidb/core/analyzer.py`) -/

/-- Python `str.strip()`. -/
def pyStrip (l : List Char) : List Char :=
  ((l.dropWhile Char.isWhitespace).reverse.dropWhile Char.isWhitespace).reverse

/-- The `context` computation of `_extract_references`: take the source line
(1-indexed), strip it, and when longer than 200 characters keep the first
200 and append an ellipsis. -/
def ref_context (source_lines : List (List Char)) (line : Nat) : Option (List Char) :=
  if 0 < line ∧ line ≤ source_lines.length then
    let context := pyStrip (source_lines.getD (line - 1) [])
    some (if 200 < context.length then context.take 200 ++ ['.', '.', '.'] else context)
  else
    none

/-! ## Lemmas about the string helpers -/

theorem hasChar_append (c : Char) (a b : List Char) :
    hasChar c (a ++ b) = (hasChar c a || hasChar c b) := by
  induction a with
  | nil => simp [hasChar]
  | cons d a ih => simp [hasChar, ih, Bool.or_assoc]

theorem startsW_self_append (s t : List Char) : startsW s (s ++ t) = true := by
  induction s with
  | nil => simp [startsW]
  | cons a s ih => simp [startsW, ih]

theorem startsW_eq_true_iff (s r : List Char) :
    startsW s r = true ↔ ∃ t, r = s ++ t := by
  induction s generalizing r with
  | nil => simp [startsW]
  | cons a s ih =>
    cases r with
    | nil => simp [startsW]
    | cons b r =>
      simp only [startsW, Bool.and_eq_true, beq_iff_eq, ih]
      constructor
      · rintro ⟨rfl, t, rfl⟩
        exact ⟨t, rfl⟩
      · rintro ⟨t, h⟩
        cases h
        exact ⟨rfl, t, rfl⟩

theorem endsW_append_right (suf l : List Char) : endsW suf (l ++ suf) = true := by
  unfold endsW
  rw [List.reverse_append]
  exact startsW_self_append _ _

theorem expand_fix_trailing_stars (l : List Char) (h : hasChar '/' l = true) :
    expand_pattern (l ++ ['*', '*']) = l ++ ['*', '*'] := by
  have c1 : hasChar '/' (l ++ ['*', '*']) = true := by
    rw [hasChar_append, h]
    rfl
  have c2 : endsW ['/'] (l ++ ['*', '*']) = false := by
    simp [endsW, startsW, List.reverse_append]
  have c3 : endsW ['.', 'p', 'y'] (l ++ ['*', '*']) = false := by
    simp [endsW, startsW, List.reverse_append]
  have c4 : hasChar '*' (l ++ ['*', '*']) = true := by
    rw [hasChar_append]
    simp [hasChar]
  simp [expand_pattern, c1, c2, c3, c4]

theorem expand_fix_trailing_dir (l : List Char) :
    expand_pattern (l ++ ['/', '*', '*']) = l ++ ['/', '*', '*'] := by
  have c1 : hasChar '/' (l ++ ['/', '*', '*']) = true := by
    rw [hasChar_append]
    simp [hasChar]
  have c2 : endsW ['/'] (l ++ ['/', '*', '*']) = false := by
    simp [endsW, startsW, List.reverse_append]
  have c3 : endsW ['.', 'p', 'y'] (l ++ ['/', '*', '*']) = false := by
    simp [endsW, startsW, List.reverse_append]
  have c4 : hasChar '*' (l ++ ['/', '*', '*']) = true := by
    rw [hasChar_append]
    simp [hasChar]
  simp [expand_pattern, c1, c2, c3, c4]

theorem expand_fix_globstar_py (l : List Char) (h : endsW ['.', 'p', 'y'] l = true) :
    expand_pattern (['*', '*', '/'] ++ l) = ['*', '*', '/'] ++ l := by
  obtain ⟨t, ht⟩ : ∃ t, l.reverse = ['y', 'p', '.'] ++ t := by
    rw [← startsW_eq_true_iff]
    simpa [endsW] using h
  have c1 : hasChar '/' ('*' :: '*' :: '/' :: l) = true := by
    simp [hasChar]
  have c2 : endsW ['/'] ('*' :: '*' :: '/' :: l) = false := by
    simp [endsW, startsW, ht]
  have c3 : endsW ['.', 'p', 'y'] ('*' :: '*' :: '/' :: l) = true := by
    simp [endsW, startsW, ht]
  have c4 : startsW ['*', '*', '/'] ('*' :: '*' :: '/' :: l) = true := by
    simp [startsW]
  simp [expand_pattern, c1, c2, c3, c4]

/-- C10: `expand_pattern` is idempotent: a pattern that has already been
expanded to a full glob passes through unchanged on re-expansion. -/
theorem expand_pattern_idem (p : List Char) :
    expand_pattern (expand_pattern p) = expand_pattern p := by
  by_cases hs : hasChar '/' p = true
  · by_cases hsl : endsW ['/'] p = true
    · have hr : expand_pattern p = p ++ ['*', '*'] := by
        simp [expand_pattern, hs, hsl]
      rw [hr]
      exact expand_fix_trailing_stars p hs
    · by_cases hpy : endsW ['.', 'p', 'y'] p = true
      · by_cases hpre : startsW ['*', '*', '/'] p = false ∧ startsW ['/'] p = false
        · have hr : expand_pattern p = ['*', '*', '/'] ++ p := by
            simp [expand_pattern, hs, hsl, hpy, hpre]
          rw [hr]
          exact expand_fix_globstar_py p hpy
        · have hr : expand_pattern p = p := by
            simp [expand_pattern, hs, hsl, hpy, hpre]
          rw [hr, hr]
      · by_cases hst : hasChar '*' p = true
        · have hr : expand_pattern p = p := by
            simp [expand_pattern, hs, hsl, hpy, hst]
          rw [hr, hr]
        · have hr : expand_pattern p = p ++ ['/', '*', '*'] := by
            simp [expand_pattern, hs, hsl, hpy, hst]
          rw [hr]
          exact expand_fix_trailing_dir p
  · by_cases hst : hasChar '*' p = true
    · have hnp : startsW ['*', '*', '/'] p = false := by
        cases hp : startsW ['*', '*', '/'] p
        · rfl
        · obtain ⟨t, rfl⟩ := (startsW_eq_true_iff _ _).mp hp
          simp [hasChar] at hs
      by_cases hpy : endsW ['.', 'p', 'y'] p = true
      · have hr : expand_pattern p = ['*', '*', '/'] ++ p := by
          simp [expand_pattern, hs, hst, hnp, hpy]
        rw [hr]
        exact expand_fix_globstar_py p hpy
      · have hr : expand_pattern p = ['*', '*', '/'] ++ (p ++ ['.', 'p', 'y']) := by
          simp [expand_pattern, hs, hst, hnp, hpy]
        rw [hr]
        exact expand_fix_globstar_py _ (endsW_append_right _ _)
    · by_cases hus : endsW ['_'] p = true
      · have hr : expand_pattern p = ['*', '*', '/'] ++ (p ++ ['*', '.', 'p', 'y']) := by
          simp [expand_pattern, hs, hst, hus]
        rw [hr]
        refine expand_fix_globstar_py _ ?_
        have h2 := endsW_append_right ['.', 'p', 'y'] (p ++ ['*'])
        simpa using h2
      · by_cases hup : startsW ['_'] p = true
        · have hr : expand_pattern p = ['*', '*', '/'] ++ ('*' :: p ++ ['.', 'p', 'y']) := by
            simp [expand_pattern, hs, hst, hus, hup]
          rw [hr]
          refine expand_fix_globstar_py _ ?_
          have h2 := endsW_append_right ['.', 'p', 'y'] ('*' :: p)
          simpa using h2
        · have hr : expand_pattern p = ('*' :: '*' :: '/' :: p) ++ ['/', '*', '*'] := by
            simp [expand_pattern, hs, hst, hus, hup]
          rw [hr]
          exact expand_fix_trailing_dir _

/-- C6 counterexample: `glob_match` does not interpret `**` as zero or more
whole path segments: the compiled `.*` may also swallow a partial segment, so
`xtest_a.py` matches `**/test_*.py` even though its only segment does not
match `test_*.py`. The segment-level semantics of the spec rejects it. -/
theorem glob_match_not_segmentwise :
    glob_match ['x', 't', 'e', 's', 't', '_', 'a', '.', 'p', 'y']
        ['*', '*', '/', 't', 'e', 's', 't', '_', '*', '.', 'p', 'y'] = true ∧
    spec_glob_match ['x', 't', 'e', 's', 't', '_', 'a', '.', 'p', 'y']
        ['*', '*', '/', 't', 'e', 's', 't', '_', '*', '.', 'p', 'y'] = false := by
  decide

/-- C6 amended: `glob_match` treats `**` as matching any characters including
the separator (with the `/` right after `**` optional), `*` as zero or more
non-separator characters and `?` as one non-separator character; in
particular `**/test_*.py` matches `src/sub/test_a.py` and `test_a.py` but not
`lib/a.py`. -/
theorem glob_match_examples :
    glob_match "src/sub/test_a.py".toList "**/test_*.py".toList = true ∧
    glob_match "test_a.py".toList "**/test_*.py".toList = true ∧
    glob_match "lib/a.py".toList "**/test_*.py".toList = false := by
  decide

set_option maxRecDepth 4000 in
/-- C7 counterexample: a stripped source line of 201 characters yields a
stored context of length 203 (200 characters plus an appended ellipsis), so
the context length can exceed 200. -/
theorem ref_context_cx :
    (ref_context [List.replicate 201 'a'] 1).map List.length = some 203 := by
  decide

/-- C7 amended: the stored context is the stripped source line when it is at
most 200 characters, and otherwise its first 200 characters followed by a
three-character ellipsis; its length therefore never exceeds 203. -/
theorem ref_context_length_le (source_lines : List (List Char)) (line : Nat)
    (ctx : List Char) (h : ref_context source_lines line = some ctx) :
    ctx.length ≤ 203 := by
  unfold ref_context at h
  split at h
  · obtain rfl : _ = ctx := Option.some.inj h
    split
    · next hlen =>
      have h200 : (200 : Nat) ≤ (pyStrip (source_lines.getD (line - 1) [])).length :=
        le_of_lt hlen
      simp [List.length_take, Nat.min_eq_left h200]
    · next hlen =>
      omega
  · exact absurd h (by simp)

/-- Witness for the C7 amended theorem at a concrete input. -/
theorem ref_context_length_le_witness :
    ref_context [['a']] 1 = some ['a'] ∧ ([('a' : Char)] : List Char).length ≤ 203 := by
  refine ⟨by decide, ?h⟩
  exact ref_context_length_le [['a']] 1 ['a'] (by decide)

/-! ## Record model (`jedidb/core/database.py` schema)

Rows of the seven record sets. Ids are `Nat`; nullable columns are
`Option`. Wall-clock columns (`modified_at`, `indexed_at`) carry no
information that any claim touches and are not representable in a pure
embedding, so they are omitted. -/

structure FileRow where
  id : Nat
  path : String
  hash : String
  size : Nat
deriving DecidableEq, Repr

structure DefRow where
  id : Nat
  file_id : Nat
  name : String
  full_name : Option String
  type : String
  line : Nat
  column : Nat
  end_line : Option Nat
  end_column : Option Nat
  signature : Option String
  docstring : Option String
  parent_id : Option Nat
  parent_full_name : Option String
  is_public : Bool
  search_text : Option String
deriving DecidableEq, Repr

structure RefRow where
  id : Nat
  file_id : Nat
  definition_id : Option Nat
  name : String
  line : Nat
  column : Nat
  context : Option String
  target_full_name : Option String
  target_module_path : Option String
  is_call : Bool
  call_order : Nat
  call_depth : Nat
deriving DecidableEq, Repr

structure ImpRow where
  id : Nat
  file_id : Nat
  module : String
  name : Option String
  alias_ : Option String
  line : Nat
deriving DecidableEq, Repr

structure DecRow where
  id : Nat
  definition_id : Nat
  name : String
  full_name : Option String
  arguments : Option String
  line : Nat
deriving DecidableEq, Repr

structure CBRow where
  id : Nat
  class_id : Nat
  base_name : String
  base_full_name : Option String
  base_id : Option Nat
  position : Nat
deriving DecidableEq, Repr

structure CallRow where
  id : Nat
  caller_full_name : Option String
  callee_full_name : Option String
  callee_name : String
  caller_id : Option Nat
  callee_id : Option Nat
  file_id : Nat
  line : Nat
  column : Nat
  context : Option String
  call_order : Nat
  call_depth : Nat
deriving DecidableEq, Repr

/-- The mutable store: seven record sets, each with its own identity
counter (the `<table>_id_seq` sequences of the schema). -/
structure Store where
  files : List FileRow
  definitions : List DefRow
  refs : List RefRow
  imports : List ImpRow
  decorators : List DecRow
  class_bases : List CBRow
  calls : List CallRow
  files_next : Nat
  definitions_next : Nat
  refs_next : Nat
  imports_next : Nat
  decorators_next : Nat
  class_bases_next : Nat
  calls_next : Nat
deriving DecidableEq, Repr

/-! ## Analyzer output payloads (`jedidb/core/models.py`)

What `Analyzer.analyze_file` hands to the indexer: dataclass instances whose
`id`/`file_id` (and link ids) are still unset. `Definition.__post_init__`
replaces a `None` `full_name` by `name`, which `mkDefRow` reproduces. -/

structure DefPayload where
  name : String
  full_name : Option String
  type : String
  line : Nat
  column : Nat
  end_line : Option Nat
  end_column : Option Nat
  signature : Option String
  docstring : Option String
  parent_full_name : Option String
  is_public : Bool
  search_text : Option String
deriving DecidableEq, Repr

structure RefPayload where
  name : String
  line : Nat
  column : Nat
  context : Option String
  target_full_name : Option String
  target_module_path : Option String
  is_call : Bool
  call_order : Nat
  call_depth : Nat
deriving DecidableEq, Repr

structure ImpPayload where
  module : String
  name : Option String
  alias_ : Option String
  line : Nat
deriving DecidableEq, Repr

/-- A decorator as extracted: `full_name` temporarily holds the owning
definition's `full_name` (cleared again on insert). -/
structure DecPayload where
  name : String
  owner_full_name : Option String
  arguments : Option String
  line : Nat
deriving DecidableEq, Repr

/-- A class base as extracted: `class_full_name` temporarily holds the owning
class's `full_name`. -/
structure CBPayload where
  class_full_name : Option String
  base_name : String
  base_full_name : Option String
  position : Nat
deriving DecidableEq, Repr

/-- Result of `Analyzer.analyze_file`. -/
structure Analysis where
  definitions : List DefPayload
  references : List RefPayload
  imports : List ImpPayload
  decorators : List DecPayload
  class_bases : List CBPayload
deriving DecidableEq, Repr

/-! ## Store operations (`jedidb/core/database.py`) -/

/-- `SELECT COALESCE(MAX(id), 0)` over a record set. -/
def maxId (ids : List Nat) : Nat :=
  ids.foldr max 0

/-- `INSERT INTO files ... RETURNING id`: the id column defaults to the next
sequence value. -/
def insert_file (s : Store) (path hash : String) (size : Nat) : Nat × Store :=
  let i := s.files_next
  (i, { s with
          files := s.files ++ [{ id := i, path := path, hash := hash, size := size }],
          files_next := i + 1 })

/-- Row built from an analyzer `Definition` dataclass on batch insert; the
dataclass `__post_init__` has already replaced a missing `full_name` by
`name`. -/
def mkDefRow (i fid : Nat) (d : DefPayload) : DefRow :=
  { id := i, file_id := fid, name := d.name,
    full_name := some (d.full_name.getD d.name), type := d.type,
    line := d.line, column := d.column, end_line := d.end_line,
    end_column := d.end_column, signature := d.signature,
    docstring := d.docstring, parent_id := none,
    parent_full_name := d.parent_full_name, is_public := d.is_public,
    search_text := d.search_text }

/-- Sequential id assignment of a batch `INSERT` whose id column defaults to
`nextval` of the record set's sequence. -/
def assignIds (mk : Nat → α → β) : Nat → List α → List β
  | _, [] => []
  | n, a :: rest => mk n a :: assignIds mk (n + 1) rest

/-- `insert_definitions_batch`. -/
def insert_definitions_batch (s : Store) (fid : Nat) (ds : List DefPayload) : Store :=
  { s with
      definitions := s.definitions ++ assignIds (fun i d => mkDefRow i fid d) s.definitions_next ds,
      definitions_next := s.definitions_next + ds.length }

def mkRefRow (i fid : Nat) (r : RefPayload) : RefRow :=
  { id := i, file_id := fid, definition_id := none, name := r.name,
    line := r.line, column := r.column, context := r.context,
    target_full_name := r.target_full_name,
    target_module_path := r.target_module_path, is_call := r.is_call,
    call_order := r.call_order, call_depth := r.call_depth }

/-- `insert_references_batch`. -/
def insert_references_batch (s : Store) (fid : Nat) (rs : List RefPayload) : Store :=
  { s with
      refs := s.refs ++ assignIds (fun i r => mkRefRow i fid r) s.refs_next rs,
      refs_next := s.refs_next + rs.length }

def mkImpRow (i fid : Nat) (m : ImpPayload) : ImpRow :=
  { id := i, file_id := fid, module := m.module, name := m.name,
    alias_ := m.alias_, line := m.line }

/-- `insert_imports_batch`. -/
def insert_imports_batch (s : Store) (fid : Nat) (ms : List ImpPayload) : Store :=
  { s with
      imports := s.imports ++ assignIds (fun i m => mkImpRow i fid m) s.imports_next ms,
      imports_next := s.imports_next + ms.length }

/-- A decorator ready for insert: owner resolved to `definition_id`, the
temporary `full_name` cleared to `NULL`. -/
def mkDecRow (i defid : Nat) (d : DecPayload) : DecRow :=
  { id := i, definition_id := defid, name := d.name, full_name := none,
    arguments := d.arguments, line := d.line }

/-- `insert_decorators_batch` over already-linked `(definition_id, payload)`
pairs. -/
def insert_decorators_batch (s : Store) (ds : List (Nat × DecPayload)) : Store :=
  { s with
      decorators := s.decorators ++ assignIds (fun i d => mkDecRow i d.1 d.2) s.decorators_next ds,
      decorators_next := s.decorators_next + ds.length }

def mkCBRow (i classId : Nat) (baseId : Option Nat) (cb : CBPayload) : CBRow :=
  { id := i, class_id := classId, base_name := cb.base_name,
    base_full_name := cb.base_full_name, base_id := baseId,
    position := cb.position }

/-- `insert_class_bases_batch` over already-linked
`(class_id, base_id, payload)` triples. -/
def insert_class_bases_batch (s : Store) (cbs : List (Nat × Option Nat × CBPayload)) : Store :=
  { s with
      class_bases := s.class_bases ++ assignIds (fun i c => mkCBRow i c.1 c.2.1 c.2.2) s.class_bases_next cbs,
      class_bases_next := s.class_bases_next + cbs.length }

/-- `DELETE FROM decorators WHERE definition_id IN (SELECT id FROM
definitions WHERE file_id = ?)`. -/
def delete_decorators_by_file (s : Store) (fid : Nat) : Store :=
  let defIds := (s.definitions.filter (fun d => d.file_id == fid)).map (·.id)
  { s with decorators := s.decorators.filter (fun d => ! defIds.contains d.definition_id) }

/-- `DELETE FROM class_bases WHERE class_id IN (SELECT id FROM definitions
WHERE file_id = ? AND type = 'class')`. -/
def delete_class_bases_by_file (s : Store) (fid : Nat) : Store :=
  let classIds := (s.definitions.filter (fun d => d.file_id == fid && d.type == "class")).map (·.id)
  { s with class_bases := s.class_bases.filter (fun cb => ! classIds.contains cb.class_id) }

/-- `delete_file`: manual cascade, dependents first, then the file row. -/
def delete_file (s : Store) (fid : Nat) : Store :=
  let s1 := delete_decorators_by_file s fid
  let s2 := delete_class_bases_by_file s1 fid
  { s2 with
      calls := s2.calls.filter (fun c => ! (c.file_id == fid)),
      refs := s2.refs.filter (fun r => ! (r.file_id == fid)),
      imports := s2.imports.filter (fun m => ! (m.file_id == fid)),
      definitions := s2.definitions.filter (fun d => ! (d.file_id == fid)),
      files := s2.files.filter (fun f => ! (f.id == fid)) }

/-- `delete_file_by_path`: look up the file row (first match) and cascade. -/
def delete_file_by_path (s : Store) (path : String) : Store :=
  match s.files.find? (fun f => f.path == path) with
  | some f => delete_file s f.id
  | none => s

/-- `populate_parent_ids`: for every definition with a `parent_full_name`,
set `parent_id` to the id of a definition in the same file with that
`full_name` (the subquery's `LIMIT 1`, modelled as the first row). -/
def populate_parent_ids (s : Store) : Store :=
  { s with
      definitions := s.definitions.map fun d =>
        match d.parent_full_name with
        | none => d
        | some pfn =>
            { d with parent_id :=
                (s.definitions.find? fun p =>
                  p.full_name == some pfn && p.file_id == d.file_id).map (·.id) } }

/-! ## Call graph rebuild (`build_call_graph`) -/

/-- `COALESCE(d.end_line, 999999) - d.line`, the window ordering key. -/
def defRange (d : DefRow) : Int :=
  (d.end_line.getD 999999 : Int) - (d.line : Int)

/-- The join condition of `build_call_graph`: a definition of kind
function/class in the same file whose line range contains the reference's
line. -/
def encloses (r : RefRow) (d : DefRow) : Bool :=
  d.file_id == r.file_id && d.line ≤ r.line && r.line ≤ d.end_line.getD 999999 &&
    (d.type == "function" || d.type == "class")

/-- Pick the element minimising a strict comparison, keeping the first of
equally-ranked candidates (the arbitrary representative that
`ROW_NUMBER() ... = 1` keeps among order-by ties). -/
def pickMinBy (lt : α → α → Bool) : List α → Option α
  | [] => none
  | x :: xs => some (xs.foldl (fun b d => if lt d b then d else b) x)

/-- `LEFT JOIN definitions callee ON callee.full_name = r.target_full_name`;
a `NULL` target joins nothing. -/
def lookupCallee (defs : List DefRow) (target : Option String) : Option DefRow :=
  match target with
  | none => none
  | some t => defs.find? fun c => c.full_name == some t

/-- The single `calls` row generated for one reference by
`build_call_graph` (`rn = 1`), if any: only call references with at least
one enclosing function/class definition produce a row. -/
def gen_call (defs : List DefRow) (r : RefRow) : Option CallRow :=
  if r.is_call then
    (pickMinBy (fun a b => defRange a < defRange b) (defs.filter (encloses r))).map fun d =>
      { id := 0, caller_full_name := d.full_name,
        callee_full_name := r.target_full_name, callee_name := r.name,
        caller_id := some d.id,
        callee_id := (lookupCallee defs r.target_full_name).map (·.id),
        file_id := r.file_id, line := r.line, column := r.column,
        context := r.context, call_order := r.call_order,
        call_depth := r.call_depth }
  else none

/-- Sequence-default id assignment for the rows inserted by
`build_call_graph`'s `INSERT INTO calls`. -/
def renumberCalls : Nat → List CallRow → List CallRow
  | _, [] => []
  | n, c :: cs => { c with id := n } :: renumberCalls (n + 1) cs

/-- `build_call_graph`: discard all `calls` rows, then regenerate one row per
call reference that has an innermost enclosing definition. -/
def build_call_graph (s : Store) : Store :=
  let rows := s.refs.filterMap (gen_call s.definitions)
  { s with
      calls := renumberCalls s.calls_next rows,
      calls_next := s.calls_next + rows.length }

/-! ## Snapshot export / re-hydration -/

/-- The parquet snapshot: one immutable unit per record set, ids included. -/
structure Snapshot where
  files : List FileRow
  definitions : List DefRow
  refs : List RefRow
  imports : List ImpRow
  decorators : List DecRow
  class_bases : List CBRow
  calls : List CallRow
deriving DecidableEq, Repr

/-- `export_to_parquet`: copy every record set out as-is. -/
def export_to_parquet (s : Store) : Snapshot :=
  { files := s.files, definitions := s.definitions, refs := s.refs,
    imports := s.imports, decorators := s.decorators,
    class_bases := s.class_bases, calls := s.calls }

/-- Modelled from the spec: the statements of `init.sql` (a packaged file not
present under the source tree) load all seven record sets from the snapshot
into a fresh in-memory store; sequences do not exist yet at this point. -/
def load_snapshot_tables (snap : Snapshot) : Store :=
  { files := snap.files, definitions := snap.definitions, refs := snap.refs,
    imports := snap.imports, decorators := snap.decorators,
    class_bases := snap.class_bases, calls := snap.calls,
    files_next := 0, definitions_next := 0, refs_next := 0, imports_next := 0,
    decorators_next := 0, class_bases_next := 0, calls_next := 0 }

/-- `open_parquet`: load the tables, then create each sequence at
`COALESCE(MAX(id), 0) + 1` and rebind it as the id column's default. -/
def open_parquet (snap : Snapshot) : Store :=
  let db := load_snapshot_tables snap
  { db with
      files_next := maxId (db.files.map (·.id)) + 1,
      definitions_next := maxId (db.definitions.map (·.id)) + 1,
      refs_next := maxId (db.refs.map (·.id)) + 1,
      imports_next := maxId (db.imports.map (·.id)) + 1,
      decorators_next := maxId (db.decorators.map (·.id)) + 1,
      class_bases_next := maxId (db.class_bases.map (·.id)) + 1,
      calls_next := maxId (db.calls.map (·.id)) + 1 }

/-! ## Indexer (`jedidb/core/indexer.py`)

The filesystem is abstracted to `disk : List (String × String)`, the
discovered files as (normalized relative path, content) pairs in discovery
order; `compute_file_hash` becomes an arbitrary function `hash` on contents,
and the external Jedi analyzer an arbitrary function `analyze` from content
to extracted records (`normalize_path` is the identity on these
already-relative paths). -/

/-- Python truthiness of an optional string (`None` and `""` are falsy). -/
def truthy : Option String → Bool
  | none => false
  | some s => ! (s == "")

/-- The `full_name → id` dictionary one `_index_file` run builds over the
definitions of a file; a dict comprehension keeps the last row for a
duplicated key, hence the reversed search. -/
def full_name_to_id (defs : List DefRow) (fid : Nat) (fn : Option String) : Option Nat :=
  (((defs.filter fun d => d.file_id == fid).reverse).find? fun d => d.full_name == fn).map (·.id)

/-- Result of `check_staleness`. -/
structure Staleness where
  is_stale : Bool
  changed : List String
  added : List String
  removed : List String
deriving DecidableEq, Repr

/-- The `{path: hash}` dictionary `check_staleness` reads from the store. -/
def db_files (s : Store) : List (String × String) :=
  s.files.map fun f => (f.path, f.hash)

/-- Discovered files present in the store whose current content hash differs
from the stored hash. -/
def staleness_changed (hash : String → String) (disk : List (String × String))
    (s : Store) : List String :=
  disk.filterMap fun pc =>
    match (db_files s).find? fun q => q.1 == pc.1 with
    | some q => if hash pc.2 == q.2 then none else some pc.1
    | none => none

/-- Discovered files with no stored row. -/
def staleness_added (disk : List (String × String)) (s : Store) : List String :=
  disk.filterMap fun pc =>
    match (db_files s).find? fun q => q.1 == pc.1 with
    | some _ => none
    | none => some pc.1

/-- Stored paths absent from the discovered files. -/
def staleness_removed (disk : List (String × String)) (s : Store) : List String :=
  ((db_files s).map (·.1)).filter fun q => ! (disk.map (·.1)).contains q

/-- `check_staleness`: compare discovered files against stored `(path, hash)`
rows, producing changed/added/removed. The single Python loop that fills
`changed` and `added` is split into two passes with identical per-element
logic. The store is threaded through unchanged: the method only issues
`SELECT`s. -/
def check_staleness (hash : String → String) (disk : List (String × String))
    (s : Store) : Staleness × Store :=
  ({ is_stale := ! (staleness_changed hash disk s).isEmpty ||
       ! (staleness_added disk s).isEmpty ||
       ! (staleness_removed disk s).isEmpty,
     changed := staleness_changed hash disk s,
     added := staleness_added disk s,
     removed := staleness_removed disk s }, s)

/-- `_index_file` with `force=True` (the only way `index` calls it): delete
any existing row for the path (cascading), insert a fresh file row, analyze,
then batch-insert definitions, link and insert decorators and class bases
via the per-file `full_name → id` dictionary, and insert references and
imports. File size is the content length. -/
def index_one (hash : String → String) (analyze : String → Analysis)
    (p c : String) (s : Store) : Store :=
  let s0 := delete_file_by_path s p
  let r1 := insert_file s0 p (hash c) c.length
  let fid := r1.1
  let s1 := r1.2
  let a := analyze c
  let s2 := insert_definitions_batch s1 fid a.definitions
  let fmap := full_name_to_id s2.definitions fid
  let linked_decs := a.decorators.filterMap fun d =>
    (fmap d.owner_full_name).map fun i => (i, d)
  let s3 := insert_decorators_batch s2 linked_decs
  let linked_cbs := a.class_bases.filterMap fun cb =>
    (fmap cb.class_full_name).map fun ci =>
      (ci, if truthy cb.base_full_name then fmap cb.base_full_name else none, cb)
  let s4 := insert_class_bases_batch s3 linked_cbs
  let s5 := insert_references_batch s4 fid a.references
  insert_imports_batch s5 fid a.imports

/-- The per-file loop of `index` once staleness (or force) decided a full
re-index. -/
def reindex_all (hash : String → String) (analyze : String → Analysis) :
    List (String × String) → Store → Store
  | [], s => s
  | pc :: rest, s => reindex_all hash analyze rest (index_one hash analyze pc.1 pc.2 s)

/-- The loop body of `_cleanup_deleted_files` with `force=True`: walk the
snapshot of stored paths and delete every one not indexed in this run,
counting removals. -/
def cleanup_go (indexed : List String) : List String → Store × Nat → Store × Nat
  | [], acc => acc
  | q :: qs, acc =>
      cleanup_go indexed qs
        (if indexed.contains q then acc else (delete_file_by_path acc.1 q, acc.2 + 1))

/-- `_cleanup_deleted_files(indexed_paths, base_path, force=True)`. -/
def cleanup (indexed : List String) (s : Store) : Store × Nat :=
  cleanup_go indexed (s.files.map (·.path)) (s, 0)

/-- The statistics dictionary `index` returns (the per-file error list is
absent: the abstracted analyzer and hash are total). -/
structure IndexStats where
  files_indexed : Nat
  files_skipped : Nat
  files_removed : Nat
  definitions_added : Nat
  references_added : Nat
  imports_added : Nat
  decorators_added : Nat
  class_bases_added : Nat
  index_skipped : Bool
deriving DecidableEq, Repr

/-- `Indexer.index`: staleness short-circuit unless forced, otherwise
all-or-nothing re-index of every discovered file, cleanup of out-of-scope
rows, then the post-processing gate (parent links, call graph when
reference resolution is on; the FTS rebuild touches no record set). -/
def index (hash : String → String) (analyze : String → Analysis)
    (resolve_refs : Bool) (disk : List (String × String)) (force : Bool)
    (s : Store) : IndexStats × Store :=
  if ! force && ! (check_staleness hash disk s).1.is_stale then
    ({ files_indexed := 0, files_skipped := disk.length, files_removed := 0,
       definitions_added := 0, references_added := 0, imports_added := 0,
       decorators_added := 0, class_bases_added := 0, index_skipped := true }, s)
  else
    let s1 := reindex_all hash analyze disk s
    let r2 := cleanup (disk.map (·.1)) s1
    let s2 := r2.1
    let removed := r2.2
    let s3 :=
      if 0 < disk.length || 0 < removed then
        let sa := populate_parent_ids s2
        if resolve_refs then build_call_graph sa else sa
      else s2
    ({ files_indexed := disk.length, files_skipped := 0, files_removed := removed,
       definitions_added := (disk.map fun pc => (analyze pc.2).definitions.length).sum,
       references_added := (disk.map fun pc => (analyze pc.2).references.length).sum,
       imports_added := (disk.map fun pc => (analyze pc.2).imports.length).sum,
       decorators_added := (disk.map fun pc => (analyze pc.2).decorators.length).sum,
       class_bases_added := (disk.map fun pc => (analyze pc.2).class_bases.length).sum,
       index_skipped := false }, s3)

/-! ## Lookup by name (`jedidb/core/search.py`, `get_definition`) -/

/-- `COALESCE(d.end_line, d.line) - d.line`, the body-length sort key of
`get_definition`. -/
def bodyRange (d : DefRow) : Int :=
  (d.end_line.getD d.line : Int) - (d.line : Int)

/-- `CASE WHEN d.full_name = ? THEN 0 ELSE 1 END`. -/
def defTier (q : String) (d : DefRow) : Nat :=
  if d.full_name == some q then 0 else 1

/-- Strict comparison realising `ORDER BY tier ASC, bodyRange DESC`. -/
def defOrderLt (q : String) (a b : DefRow) : Bool :=
  defTier q a < defTier q b || (defTier q a == defTier q b && bodyRange b < bodyRange a)

/-- `get_definition`: rows joined to a live file row and matching the query
by `full_name` or `name`, ordered by exact-`full_name` tier then body length
descending, `LIMIT 1` (an order-by tie keeps the first row). -/
def get_definition (files : List FileRow) (defs : List DefRow) (q : String) : Option DefRow :=
  pickMinBy (defOrderLt q)
    (defs.filter fun d =>
      (files.any fun f => f.id == d.file_id) && (d.full_name == some q || d.name == q))

/-! ## Properties of `pickMinBy` -/

theorem foldl_pick_mem (lt : α → α → Bool) :
    ∀ (xs : List α) (x : α), xs.foldl (fun b d => if lt d b then d else b) x ∈ x :: xs := by
  intro xs
  induction xs with
  | nil => intro x; simp
  | cons y ys ih =>
    intro x
    simp only [List.foldl_cons]
    by_cases hy : lt y x = true
    · rw [hy]
      simp only [if_true]
      rcases List.mem_cons.mp (ih y) with h1 | h1
      · simp [h1]
      · simp [h1]
    · rw [Bool.not_eq_true] at hy
      rw [hy]
      simp only [Bool.false_eq_true, if_false]
      rcases List.mem_cons.mp (ih x) with h1 | h1
      · simp [h1]
      · simp [h1]

theorem pickMinBy_mem (lt : α → α → Bool) (l : List α) (r : α)
    (h : pickMinBy lt l = some r) : r ∈ l := by
  cases l with
  | nil => exact absurd h (by simp [pickMinBy])
  | cons x xs =>
    obtain rfl : _ = r := Option.some.inj h
    exact foldl_pick_mem lt xs x

theorem foldl_pick_min (lt : α → α → Bool)
    (hirr : ∀ a, lt a a = false)
    (htrans : ∀ a b c, lt a b = true → lt b c = true → lt a c = true)
    (hntrans : ∀ a b c, lt a b = false → lt b c = false → lt a c = false) :
    ∀ (xs : List α) (x : α) (d : α), d ∈ x :: xs →
      lt d (xs.foldl (fun b e => if lt e b then e else b) x) = false := by
  intro xs
  induction xs with
  | nil =>
    intro x d hd
    simp only [List.mem_singleton] at hd
    subst hd
    simpa using hirr d
  | cons y ys ih =>
    intro x d hd
    simp only [List.foldl_cons]
    by_cases hy : lt y x = true
    · rw [hy]
      simp only [if_true]
      have hyR := ih y y (List.mem_cons_self y ys)
      rcases List.mem_cons.mp hd with rfl | hd1
      · by_contra hc
        rw [Bool.not_eq_false] at hc
        exact absurd (htrans y d _ hy hc) (by rw [hyR]; simp)
      · rcases List.mem_cons.mp hd1 with rfl | hd2
        · exact hyR
        · exact ih y d (List.mem_cons.mpr (Or.inr hd2))
    · rw [Bool.not_eq_true] at hy
      rw [hy]
      simp only [Bool.false_eq_true, if_false]
      have hxR := ih x x (List.mem_cons_self x ys)
      rcases List.mem_cons.mp hd with rfl | hd1
      · exact hxR
      · rcases List.mem_cons.mp hd1 with rfl | hd2
        · exact hntrans d x _ hy hxR
        · exact ih x d (List.mem_cons.mpr (Or.inr hd2))

theorem pickMinBy_min (lt : α → α → Bool)
    (hirr : ∀ a, lt a a = false)
    (htrans : ∀ a b c, lt a b = true → lt b c = true → lt a c = true)
    (hntrans : ∀ a b c, lt a b = false → lt b c = false → lt a c = false)
    (l : List α) (r : α) (h : pickMinBy lt l = some r) :
    ∀ d ∈ l, lt d r = false := by
  cases l with
  | nil => simp
  | cons x xs =>
    obtain rfl : _ = r := Option.some.inj h
    exact foldl_pick_min lt hirr htrans hntrans xs x

theorem pickMinBy_isSome (lt : α → α → Bool) (l : List α) (hl : l ≠ []) :
    ∃ r, pickMinBy lt l = some r := by
  cases l with
  | nil => exact absurd rfl hl
  | cons x xs => exact ⟨_, rfl⟩

theorem defOrderLt_irrefl (q : String) (a : DefRow) : defOrderLt q a a = false := by
  simp [defOrderLt]

theorem defOrderLt_trans (q : String) (a b c : DefRow)
    (h1 : defOrderLt q a b = true) (h2 : defOrderLt q b c = true) :
    defOrderLt q a c = true := by
  simp only [defOrderLt, Bool.or_eq_true, Bool.and_eq_true, decide_eq_true_eq,
    beq_iff_eq] at h1 h2 ⊢
  omega

theorem defOrderLt_ntrans (q : String) (a b c : DefRow)
    (h1 : defOrderLt q a b = false) (h2 : defOrderLt q b c = false) :
    defOrderLt q a c = false := by
  rw [Bool.eq_false_iff] at h1 h2 ⊢
  simp only [ne_eq, defOrderLt, Bool.or_eq_true, Bool.and_eq_true, decide_eq_true_eq,
    beq_iff_eq] at h1 h2 ⊢
  omega

/-- Concrete rows for exercising `get_definition`. -/
def cx8_d1 : DefRow :=
  { id := 1, file_id := 1, name := "helper", full_name := some "m.helper",
    type := "function", line := 1, column := 0, end_line := some 2,
    end_column := none, signature := none, docstring := none,
    parent_id := none, parent_full_name := none, is_public := true,
    search_text := none }

def cx8_d2 : DefRow :=
  { id := 2, file_id := 1, name := "m.helper", full_name := some "x",
    type := "function", line := 10, column := 0, end_line := some 50,
    end_column := none, signature := none, docstring := none,
    parent_id := none, parent_full_name := none, is_public := true,
    search_text := none }

def cx8_files : List FileRow :=
  [{ id := 1, path := "a.py", hash := "h", size := 0 }]

/-- C8 counterexample: with two rows matching the query `m.helper`,
`get_definition` returns the exact-`full_name` match `cx8_d1` even though the
other matching row `cx8_d2` has a strictly larger `end_line − line`, so the
result does not maximise the body range over all matching rows. -/
theorem get_definition_not_longest_cx :
    get_definition cx8_files [cx8_d1, cx8_d2] "m.helper" = some cx8_d1 ∧
    (cx8_d2.full_name == some "m.helper" || cx8_d2.name == "m.helper") = true ∧
    (cx8_files.any fun f => f.id == cx8_d2.file_id) = true ∧
    bodyRange cx8_d1 < bodyRange cx8_d2 := by
  decide

/-- C8 amended: when several definition rows match the queried name,
`get_definition` first prefers rows whose `full_name` equals the query
exactly, and within that preferred tier returns a row maximising
`COALESCE(end_line, line) − line`. -/
theorem get_definition_order (files : List FileRow) (defs : List DefRow)
    (q : String) (r : DefRow) (h : get_definition files defs q = some r) :
    r ∈ defs ∧ (files.any fun f => f.id == r.file_id) = true ∧
    (r.full_name == some q || r.name == q) = true ∧
    ∀ d ∈ defs, (files.any fun f => f.id == d.file_id) = true →
      (d.full_name == some q || d.name == q) = true →
      defTier q r ≤ defTier q d ∧
        (defTier q d = defTier q r → bodyRange d ≤ bodyRange r) := by
  have hmem := pickMinBy_mem _ _ _ h
  rw [List.mem_filter, Bool.and_eq_true] at hmem
  refine ⟨hmem.1, hmem.2.1, hmem.2.2, ?m⟩
  intro d hd hdf hdq
  have hdmem : d ∈ defs.filter fun d =>
      (files.any fun f => f.id == d.file_id) && (d.full_name == some q || d.name == q) := by
    rw [List.mem_filter, Bool.and_eq_true]
    exact ⟨hd, hdf, hdq⟩
  have hmin := pickMinBy_min _ (defOrderLt_irrefl q) (defOrderLt_trans q)
    (defOrderLt_ntrans q) _ _ h d hdmem
  rw [Bool.eq_false_iff] at hmin
  simp only [ne_eq, defOrderLt, Bool.or_eq_true, Bool.and_eq_true,
    decide_eq_true_eq, beq_iff_eq] at hmin
  omega

/-- Witness for the C8 amended theorem at a concrete store. -/
theorem get_definition_order_witness :
    get_definition cx8_files [cx8_d1] "helper" = some cx8_d1 ∧
    (cx8_d1 ∈ [cx8_d1] ∧ (cx8_files.any fun f => f.id == cx8_d1.file_id) = true ∧
      (cx8_d1.full_name == some "helper" || cx8_d1.name == "helper") = true ∧
      ∀ d ∈ [cx8_d1], (cx8_files.any fun f => f.id == d.file_id) = true →
        (d.full_name == some "helper" || d.name == "helper") = true →
        defTier "helper" cx8_d1 ≤ defTier "helper" d ∧
          (defTier "helper" d = defTier "helper" cx8_d1 →
            bodyRange d ≤ bodyRange cx8_d1)) :=
  ⟨by decide, get_definition_order cx8_files [cx8_d1] "helper" cx8_d1 (by decide)⟩

/-! ## C2: snapshot round-trip preserves id freshness -/

theorem le_maxId (ids : List Nat) : ∀ i ∈ ids, i ≤ maxId ids := by
  induction ids with
  | nil => simp
  | cons j rest ih =>
    intro i hi
    rcases List.mem_cons.mp hi with rfl | hi2
    · simp only [maxId, List.foldr_cons]
      omega
    · have := ih i hi2
      simp only [maxId, List.foldr_cons]
      simp only [maxId] at this
      omega

/-- `INSERT INTO calls` with the id column defaulting to the sequence. -/
def insert_calls_batch (s : Store) (rows : List CallRow) : Store :=
  { s with
      calls := s.calls ++ renumberCalls s.calls_next rows,
      calls_next := s.calls_next + rows.length }

/-- C2: after exporting a store to a snapshot and re-opening it via
`open_parquet`, inserting one record into any of the seven record sets
assigns it an id strictly greater than every id in the snapshot for that
record set, because each sequence restarts at `max(existing id) + 1`. -/
theorem open_parquet_insert_fresh_ids (s : Store) (p h : String) (sz fid : Nat)
    (dp : DefPayload) (rp : RefPayload) (ip : ImpPayload)
    (decp : Nat × DecPayload) (cbp : Nat × Option Nat × CBPayload) (cp : CallRow) :
    (∃ nf, (insert_file (open_parquet (export_to_parquet s)) p h sz).2.files
        = (export_to_parquet s).files ++ [nf] ∧
      ∀ old ∈ (export_to_parquet s).files, old.id < nf.id) ∧
    (∃ nd, (insert_definitions_batch (open_parquet (export_to_parquet s)) fid [dp]).definitions
        = (export_to_parquet s).definitions ++ [nd] ∧
      ∀ old ∈ (export_to_parquet s).definitions, old.id < nd.id) ∧
    (∃ nr, (insert_references_batch (open_parquet (export_to_parquet s)) fid [rp]).refs
        = (export_to_parquet s).refs ++ [nr] ∧
      ∀ old ∈ (export_to_parquet s).refs, old.id < nr.id) ∧
    (∃ ni, (insert_imports_batch (open_parquet (export_to_parquet s)) fid [ip]).imports
        = (export_to_parquet s).imports ++ [ni] ∧
      ∀ old ∈ (export_to_parquet s).imports, old.id < ni.id) ∧
    (∃ ndec, (insert_decorators_batch (open_parquet (export_to_parquet s)) [decp]).decorators
        = (export_to_parquet s).decorators ++ [ndec] ∧
      ∀ old ∈ (export_to_parquet s).decorators, old.id < ndec.id) ∧
    (∃ ncb, (insert_class_bases_batch (open_parquet (export_to_parquet s)) [cbp]).class_bases
        = (export_to_parquet s).class_bases ++ [ncb] ∧
      ∀ old ∈ (export_to_parquet s).class_bases, old.id < ncb.id) ∧
    (∃ nc, (insert_calls_batch (open_parquet (export_to_parquet s)) [cp]).calls
        = (export_to_parquet s).calls ++ [nc] ∧
      ∀ old ∈ (export_to_parquet s).calls, old.id < nc.id) := by
  refine ⟨⟨_, rfl, ?f⟩, ⟨_, rfl, ?d⟩, ⟨_, rfl, ?r⟩, ⟨_, rfl, ?i⟩,
    ⟨_, rfl, ?dec⟩, ⟨_, rfl, ?cb⟩, ⟨_, rfl, ?c⟩⟩
  all_goals
    intro old hold
  case f =>
    have := le_maxId (s.files.map (·.id)) old.id (List.mem_map_of_mem _ hold)
    simp only [insert_file, open_parquet, load_snapshot_tables, export_to_parquet] at *
    omega
  case d =>
    have := le_maxId (s.definitions.map (·.id)) old.id (List.mem_map_of_mem _ hold)
    simp only [assignIds, mkDefRow, open_parquet, load_snapshot_tables, export_to_parquet] at *
    omega
  case r =>
    have := le_maxId (s.refs.map (·.id)) old.id (List.mem_map_of_mem _ hold)
    simp only [assignIds, mkRefRow, open_parquet, load_snapshot_tables, export_to_parquet] at *
    omega
  case i =>
    have := le_maxId (s.imports.map (·.id)) old.id (List.mem_map_of_mem _ hold)
    simp only [assignIds, mkImpRow, open_parquet, load_snapshot_tables, export_to_parquet] at *
    omega
  case dec =>
    have := le_maxId (s.decorators.map (·.id)) old.id (List.mem_map_of_mem _ hold)
    simp only [assignIds, mkDecRow, open_parquet, load_snapshot_tables, export_to_parquet] at *
    omega
  case cb =>
    have := le_maxId (s.class_bases.map (·.id)) old.id (List.mem_map_of_mem _ hold)
    simp only [assignIds, mkCBRow, open_parquet, load_snapshot_tables, export_to_parquet] at *
    omega
  case c =>
    have := le_maxId (s.calls.map (·.id)) old.id (List.mem_map_of_mem _ hold)
    simp only [renumberCalls, open_parquet, load_snapshot_tables, export_to_parquet] at *
    omega

/-- Rows of a concrete store exercising the snapshot round-trip. -/
def w2_file : FileRow :=
  { id := 3, path := "a.py", hash := "h", size := 1 }

def w2_def : DefRow :=
  { id := 5, file_id := 3, name := "f", full_name := some "m.f",
    type := "function", line := 1, column := 0, end_line := some 3,
    end_column := none, signature := none, docstring := none,
    parent_id := none, parent_full_name := none, is_public := true,
    search_text := some "f" }

def w2_ref : RefRow :=
  { id := 7, file_id := 3, definition_id := none, name := "f",
    line := 2, column := 0, context := none, target_full_name := some "m.f",
    target_module_path := none, is_call := true, call_order := 1,
    call_depth := 1 }

def w2_imp : ImpRow :=
  { id := 2, file_id := 3, module := "os", name := none,
    alias_ := none, line := 1 }

def w2_decrow : DecRow :=
  { id := 4, definition_id := 5, name := "cached",
    full_name := none, arguments := none, line := 1 }

def w2_cbrow : CBRow :=
  { id := 6, class_id := 5, base_name := "Base",
    base_full_name := none, base_id := none, position := 0 }

def w2_call : CallRow :=
  { id := 8, caller_full_name := some "m.f",
    callee_full_name := some "m.f", callee_name := "f", caller_id := some 5,
    callee_id := some 5, file_id := 3, line := 2, column := 0,
    context := none, call_order := 1, call_depth := 1 }

/-- Concrete store exercising the snapshot round-trip: one row per record
set, with assorted ids. -/
def w2_store : Store :=
  { files := [w2_file], definitions := [w2_def], refs := [w2_ref],
    imports := [w2_imp], decorators := [w2_decrow],
    class_bases := [w2_cbrow], calls := [w2_call],
    files_next := 4, definitions_next := 6, refs_next := 8, imports_next := 3,
    decorators_next := 5, class_bases_next := 7, calls_next := 9 }

def w2_dp : DefPayload :=
  { name := "g", full_name := some "m.g", type := "function", line := 5,
    column := 0, end_line := some 6, end_column := none, signature := none,
    docstring := none, parent_full_name := none, is_public := true,
    search_text := none }

def w2_rp : RefPayload :=
  { name := "g", line := 6, column := 0, context := none,
    target_full_name := none, target_module_path := none, is_call := false,
    call_order := 0, call_depth := 0 }

def w2_ip : ImpPayload :=
  { module := "sys", name := none, alias_ := none, line := 2 }

def w2_decpay : DecPayload :=
  { name := "wraps", owner_full_name := some "m.f", arguments := none, line := 4 }

def w2_decp : Nat × DecPayload :=
  (5, w2_decpay)

def w2_cbpay : CBPayload :=
  { class_full_name := some "m.f", base_name := "object",
    base_full_name := none, position := 0 }

def w2_cbp : Nat × Option Nat × CBPayload :=
  (5, none, w2_cbpay)

def w2_cp : CallRow :=
  { id := 0, caller_full_name := some "m.g", callee_full_name := none,
    callee_name := "h", caller_id := some 5, callee_id := none, file_id := 3,
    line := 6, column := 0, context := none, call_order := 0, call_depth := 0 }

/-- Witness for C2 at a concrete store with one row per record set. -/
theorem open_parquet_insert_fresh_ids_witness :
    (∃ nf, (insert_file (open_parquet (export_to_parquet w2_store)) "b.py" "h2" 0).2.files
        = (export_to_parquet w2_store).files ++ [nf] ∧
      ∀ old ∈ (export_to_parquet w2_store).files, old.id < nf.id) ∧
    (∃ nd, (insert_definitions_batch (open_parquet (export_to_parquet w2_store)) 3 [w2_dp]).definitions
        = (export_to_parquet w2_store).definitions ++ [nd] ∧
      ∀ old ∈ (export_to_parquet w2_store).definitions, old.id < nd.id) ∧
    (∃ nr, (insert_references_batch (open_parquet (export_to_parquet w2_store)) 3 [w2_rp]).refs
        = (export_to_parquet w2_store).refs ++ [nr] ∧
      ∀ old ∈ (export_to_parquet w2_store).refs, old.id < nr.id) ∧
    (∃ ni, (insert_imports_batch (open_parquet (export_to_parquet w2_store)) 3 [w2_ip]).imports
        = (export_to_parquet w2_store).imports ++ [ni] ∧
      ∀ old ∈ (export_to_parquet w2_store).imports, old.id < ni.id) ∧
    (∃ ndec, (insert_decorators_batch (open_parquet (export_to_parquet w2_store)) [w2_decp]).decorators
        = (export_to_parquet w2_store).decorators ++ [ndec] ∧
      ∀ old ∈ (export_to_parquet w2_store).decorators, old.id < ndec.id) ∧
    (∃ ncb, (insert_class_bases_batch (open_parquet (export_to_parquet w2_store)) [w2_cbp]).class_bases
        = (export_to_parquet w2_store).class_bases ++ [ncb] ∧
      ∀ old ∈ (export_to_parquet w2_store).class_bases, old.id < ncb.id) ∧
    (∃ nc, (insert_calls_batch (open_parquet (export_to_parquet w2_store)) [w2_cp]).calls
        = (export_to_parquet w2_store).calls ++ [nc] ∧
      ∀ old ∈ (export_to_parquet w2_store).calls, old.id < nc.id) :=
  open_parquet_insert_fresh_ids w2_store "b.py" "h2" 0 3 w2_dp w2_rp w2_ip
    w2_decp w2_cbp w2_cp

/-! ## C3: cascade completeness of `delete_file` -/

/-- C3: deleting a file removes every dependent row: afterwards no
definition, reference, import, or call carries the file's id, the file row
itself is gone, and no decorator or class base owned by a definition of that
file survives. The hypothesis is the data-model invariant that a class-base
row is owned by a definition of kind `class` (which the schema-conforming
insert path establishes); without it the class-base cascade, which filters on
`type = 'class'`, could not see the owner. -/
theorem delete_file_cascade (s : Store) (fid : Nat)
    (hcb : ∀ cb ∈ s.class_bases, ∀ d ∈ s.definitions,
      d.id = cb.class_id → d.file_id = fid → d.type = "class") :
    (∀ d ∈ (delete_file s fid).definitions, d.file_id ≠ fid) ∧
    (∀ r ∈ (delete_file s fid).refs, r.file_id ≠ fid) ∧
    (∀ m ∈ (delete_file s fid).imports, m.file_id ≠ fid) ∧
    (∀ c ∈ (delete_file s fid).calls, c.file_id ≠ fid) ∧
    (∀ f ∈ (delete_file s fid).files, f.id ≠ fid) ∧
    (∀ dec ∈ (delete_file s fid).decorators, ∀ d ∈ s.definitions,
      d.id = dec.definition_id → d.file_id ≠ fid) ∧
    (∀ cb ∈ (delete_file s fid).class_bases, ∀ d ∈ s.definitions,
      d.id = cb.class_id → d.file_id ≠ fid) := by
  refine ⟨?defs, ?refs, ?imps, ?calls, ?files, ?decs, ?cbs⟩
  case defs =>
    intro d hd
    have := (List.mem_filter.mp hd).2
    simpa using this
  case refs =>
    intro r hr
    have := (List.mem_filter.mp hr).2
    simpa using this
  case imps =>
    intro m hm
    have := (List.mem_filter.mp hm).2
    simpa using this
  case calls =>
    intro c hc
    have := (List.mem_filter.mp hc).2
    simpa using this
  case files =>
    intro f hf
    have := (List.mem_filter.mp hf).2
    simpa using this
  case decs =>
    intro dec hdec d hd hid hfile
    simp only [delete_file, delete_class_bases_by_file, delete_decorators_by_file] at hdec
    have hcond := (List.mem_filter.mp hdec).2
    have hnot : dec.definition_id ∉
        (s.definitions.filter fun d => d.file_id == fid).map (·.id) := by
      simpa using hcond
    refine hnot ?_
    rw [← hid]
    exact List.mem_map_of_mem _ (List.mem_filter.mpr ⟨hd, by simp [hfile]⟩)
  case cbs =>
    intro cb hcb2 d hd hid hfile
    simp only [delete_file, delete_class_bases_by_file, delete_decorators_by_file] at hcb2
    have hcbmem : cb ∈ s.class_bases := (List.mem_filter.mp hcb2).1
    have hclass : d.type = "class" := hcb cb hcbmem d hd hid hfile
    have hcond := (List.mem_filter.mp hcb2).2
    have hnot : cb.class_id ∉
        (s.definitions.filter fun d => d.file_id == fid && d.type == "class").map (·.id) := by
      simpa using hcond
    refine hnot ?_
    rw [← hid]
    exact List.mem_map_of_mem _ (List.mem_filter.mpr ⟨hd, by simp [hfile, hclass]⟩)

/-- Rows of a concrete two-file store for exercising the cascade. -/
def w3_cls : DefRow :=
  { id := 1, file_id := 1, name := "User", full_name := some "m.User",
    type := "class", line := 1, column := 0, end_line := some 9,
    end_column := none, signature := none, docstring := none,
    parent_id := none, parent_full_name := none, is_public := true,
    search_text := none }

def w3_fn : DefRow :=
  { id := 2, file_id := 1, name := "run", full_name := some "m.run",
    type := "function", line := 3, column := 4, end_line := some 5,
    end_column := none, signature := none, docstring := none,
    parent_id := none, parent_full_name := some "m.User", is_public := true,
    search_text := none }

def w3_other : DefRow :=
  { id := 3, file_id := 2, name := "keep", full_name := some "n.keep",
    type := "function", line := 1, column := 0, end_line := some 2,
    end_column := none, signature := none, docstring := none,
    parent_id := none, parent_full_name := none, is_public := true,
    search_text := none }

def w3_ref1 : RefRow :=
  { id := 1, file_id := 1, definition_id := none, name := "keep",
    line := 4, column := 8, context := none, target_full_name := some "n.keep",
    target_module_path := none, is_call := true, call_order := 1, call_depth := 1 }

def w3_ref2 : RefRow :=
  { id := 2, file_id := 2, definition_id := none, name := "len",
    line := 2, column := 4, context := none, target_full_name := none,
    target_module_path := none, is_call := true, call_order := 1, call_depth := 1 }

def w3_imp1 : ImpRow :=
  { id := 1, file_id := 1, module := "n", name := none, alias_ := none, line := 1 }

def w3_imp2 : ImpRow :=
  { id := 2, file_id := 2, module := "os", name := none, alias_ := none, line := 1 }

def w3_dec1 : DecRow :=
  { id := 1, definition_id := 2, name := "cached",
    full_name := none, arguments := none, line := 2 }

def w3_dec2 : DecRow :=
  { id := 2, definition_id := 3, name := "wraps",
    full_name := none, arguments := none, line := 1 }

def w3_cb1 : CBRow :=
  { id := 1, class_id := 1, base_name := "Base",
    base_full_name := none, base_id := none, position := 0 }

def w3_call1 : CallRow :=
  { id := 1, caller_full_name := some "m.run", callee_full_name := some "n.keep",
    callee_name := "keep", caller_id := some 2, callee_id := some 3,
    file_id := 1, line := 4, column := 8, context := none,
    call_order := 1, call_depth := 1 }

def w3_call2 : CallRow :=
  { id := 2, caller_full_name := some "n.keep", callee_full_name := none,
    callee_name := "len", caller_id := some 3, callee_id := none,
    file_id := 2, line := 2, column := 4, context := none,
    call_order := 1, call_depth := 1 }

def w3_store : Store :=
  { files := [{ id := 1, path := "a.py", hash := "h1", size := 1 },
      { id := 2, path := "b.py", hash := "h2", size := 1 }],
    definitions := [w3_cls, w3_fn, w3_other],
    refs := [w3_ref1, w3_ref2],
    imports := [w3_imp1, w3_imp2],
    decorators := [w3_dec1, w3_dec2],
    class_bases := [w3_cb1],
    calls := [w3_call1, w3_call2],
    files_next := 3, definitions_next := 4, refs_next := 3, imports_next := 3,
    decorators_next := 3, class_bases_next := 2, calls_next := 3 }

/-- Witness for C3 at a concrete two-file store. -/
theorem delete_file_cascade_witness :
    (∀ cb ∈ w3_store.class_bases, ∀ d ∈ w3_store.definitions,
      d.id = cb.class_id → d.file_id = 1 → d.type = "class") ∧
    ((∀ d ∈ (delete_file w3_store 1).definitions, d.file_id ≠ 1) ∧
     (∀ r ∈ (delete_file w3_store 1).refs, r.file_id ≠ 1) ∧
     (∀ m ∈ (delete_file w3_store 1).imports, m.file_id ≠ 1) ∧
     (∀ c ∈ (delete_file w3_store 1).calls, c.file_id ≠ 1) ∧
     (∀ f ∈ (delete_file w3_store 1).files, f.id ≠ 1) ∧
     (∀ dec ∈ (delete_file w3_store 1).decorators, ∀ d ∈ w3_store.definitions,
       d.id = dec.definition_id → d.file_id ≠ 1) ∧
     (∀ cb ∈ (delete_file w3_store 1).class_bases, ∀ d ∈ w3_store.definitions,
       d.id = cb.class_id → d.file_id ≠ 1)) :=
  ⟨by decide, delete_file_cascade w3_store 1 (by decide)⟩

/-! ## C9: `check_staleness` mutates nothing -/

/-- C9: `check_staleness` only reads: after a call, all seven record sets
(and all seven identity counters) are exactly what they were before. -/
theorem check_staleness_no_mutation (hash : String → String)
    (disk : List (String × String)) (s : Store) :
    (check_staleness hash disk s).2.files = s.files ∧
    (check_staleness hash disk s).2.definitions = s.definitions ∧
    (check_staleness hash disk s).2.refs = s.refs ∧
    (check_staleness hash disk s).2.imports = s.imports ∧
    (check_staleness hash disk s).2.decorators = s.decorators ∧
    (check_staleness hash disk s).2.class_bases = s.class_bases ∧
    (check_staleness hash disk s).2.calls = s.calls ∧
    (check_staleness hash disk s).2 = s :=
  ⟨rfl, rfl, rfl, rfl, rfl, rfl, rfl, rfl⟩

/-! ## C5: staleness correctness -/

theorem find?_path_hash (p : String) :
    ∀ (files : List FileRow), (files.map (·.path)).Nodup →
      ∀ f ∈ files, f.path = p →
        ((files.map fun g => (g.path, g.hash)).find? fun q => q.1 == p)
          = some (p, f.hash) := by
  intro files
  induction files with
  | nil => simp
  | cons g rest ih =>
    intro hnd f hf hp
    have hnd2 : (rest.map (·.path)).Nodup := (List.nodup_cons.mp hnd).2
    have hgn : g.path ∉ rest.map (·.path) := (List.nodup_cons.mp hnd).1
    rcases List.mem_cons.mp hf with rfl | hf2
    · simp [List.find?_cons, hp]
    · have hgp : (g.path == p) = false := by
        rw [Bool.eq_false_iff]
        intro hgp2
        rw [beq_iff_eq] at hgp2
        refine hgn ?_
        rw [hgp2, ← hp]
        exact List.mem_map_of_mem _ hf2
      simp only [List.map_cons, List.find?_cons, hgp]
      exact ih hnd2 f hf2 hp

theorem changed_spec (hash : String → String) (disk : List (String × String))
    (s : Store) (p : String) (h : p ∈ staleness_changed hash disk s) :
    (∃ c, (p, c) ∈ disk) ∧
      ∃ q, ((db_files s).find? fun q => q.1 == p) = some q := by
  rw [staleness_changed, List.mem_filterMap] at h
  obtain ⟨pc, hpc, hf⟩ := h
  rcases hfind : (db_files s).find? fun q => q.1 == pc.1 with _ | q
  · rw [hfind] at hf
    simp at hf
  · rw [hfind] at hf
    by_cases hb : (hash pc.2 == q.2) = true
    · simp [hb] at hf
    · simp [hb] at hf
      subst hf
      exact ⟨⟨pc.2, by simpa using hpc⟩, q, hfind⟩

theorem added_spec (disk : List (String × String)) (s : Store) (p : String)
    (h : p ∈ staleness_added disk s) :
    (∃ c, (p, c) ∈ disk) ∧ ((db_files s).find? fun q => q.1 == p) = none := by
  rw [staleness_added, List.mem_filterMap] at h
  obtain ⟨pc, hpc, hf⟩ := h
  rcases hfind : (db_files s).find? fun q => q.1 == pc.1 with _ | q
  · rw [hfind] at hf
    simp only [Option.some.injEq] at hf
    subst hf
    exact ⟨⟨pc.2, by simpa using hpc⟩, hfind⟩
  · rw [hfind] at hf
    simp at hf

theorem removed_spec (disk : List (String × String)) (s : Store) (p : String)
    (h : p ∈ staleness_removed disk s) :
    (∃ f ∈ s.files, f.path = p) ∧ ∀ pc ∈ disk, pc.1 ≠ p := by
  rw [staleness_removed, List.mem_filter] at h
  obtain ⟨hmem, hcon⟩ := h
  constructor
  · rw [db_files, List.map_map] at hmem
    obtain ⟨f, hf, hfp⟩ := List.mem_map.mp hmem
    exact ⟨f, hf, by simpa using hfp⟩
  · intro pc hpc hpeq
    simp at hcon
    refine hcon pc.2 ?_
    rw [← hpeq]
    simpa using hpc

/-- C5: `check_staleness` classifies correctly: a discovered file whose hash
differs from its stored hash is in `changed`, a discovered file with no
stored row is in `added`, a stored row whose path was not discovered is in
`removed`; the three sets are pairwise disjoint; and `is_stale` holds iff
their union is non-empty. Stored paths are unique (schema `UNIQUE`
constraint on `files.path`). -/
theorem check_staleness_correct (hash : String → String)
    (disk : List (String × String)) (s : Store)
    (hdb : (s.files.map (·.path)).Nodup) :
    (∀ p c, (p, c) ∈ disk → ∀ f ∈ s.files, f.path = p → hash c ≠ f.hash →
      p ∈ (check_staleness hash disk s).1.changed) ∧
    (∀ p c, (p, c) ∈ disk → (∀ f ∈ s.files, f.path ≠ p) →
      p ∈ (check_staleness hash disk s).1.added) ∧
    (∀ f ∈ s.files, (∀ pc ∈ disk, pc.1 ≠ f.path) →
      f.path ∈ (check_staleness hash disk s).1.removed) ∧
    (∀ p, p ∈ (check_staleness hash disk s).1.changed →
      p ∉ (check_staleness hash disk s).1.added) ∧
    (∀ p, p ∈ (check_staleness hash disk s).1.changed →
      p ∉ (check_staleness hash disk s).1.removed) ∧
    (∀ p, p ∈ (check_staleness hash disk s).1.added →
      p ∉ (check_staleness hash disk s).1.removed) ∧
    ((check_staleness hash disk s).1.is_stale = true ↔
      ¬ ((check_staleness hash disk s).1.changed = [] ∧
         (check_staleness hash disk s).1.added = [] ∧
         (check_staleness hash disk s).1.removed = [])) := by
  refine ⟨?chg, ?add, ?rem, ?d1, ?d2, ?d3, ?stale⟩
  case chg =>
    intro p c hpc f hf hp hhash
    show p ∈ staleness_changed hash disk s
    rw [staleness_changed, List.mem_filterMap]
    refine ⟨(p, c), hpc, ?_⟩
    have := find?_path_hash p s.files hdb f hf hp
    rw [db_files, this]
    simp [hhash]
  case add =>
    intro p c hpc hnof
    show p ∈ staleness_added disk s
    rw [staleness_added, List.mem_filterMap]
    refine ⟨(p, c), hpc, ?_⟩
    have hnone : ((db_files s).find? fun q => q.1 == p) = none := by
      rw [List.find?_eq_none]
      intro q hq
      obtain ⟨f, hf, rfl⟩ := List.mem_map.mp hq
      simpa using hnof f hf
    rw [hnone]
  case rem =>
    intro f hf hnd
    show f.path ∈ staleness_removed disk s
    rw [staleness_removed, List.mem_filter]
    refine ⟨?_, ?_⟩
    · rw [db_files, List.map_map]
      exact List.mem_map_of_mem _ hf
    · simp
      exact fun x hx => hnd (f.path, x) hx rfl
  case d1 =>
    intro p hp hp2
    obtain ⟨_, q, hsome⟩ := changed_spec hash disk s p hp
    obtain ⟨_, hnone⟩ := added_spec disk s p hp2
    rw [hsome] at hnone
    exact absurd hnone (by simp)
  case d2 =>
    intro p hp hp2
    obtain ⟨⟨c, hc⟩, _⟩ := changed_spec hash disk s p hp
    obtain ⟨_, hnd⟩ := removed_spec disk s p hp2
    exact hnd (p, c) hc rfl
  case d3 =>
    intro p hp hp2
    obtain ⟨⟨c, hc⟩, _⟩ := added_spec disk s p hp
    obtain ⟨_, hnd⟩ := removed_spec disk s p hp2
    exact hnd (p, c) hc rfl
  case stale =>
    show (! (staleness_changed hash disk s).isEmpty ||
       ! (staleness_added disk s).isEmpty ||
       ! (staleness_removed disk s).isEmpty) = true ↔
      ¬ (staleness_changed hash disk s = [] ∧ staleness_added disk s = [] ∧
         staleness_removed disk s = [])
    generalize staleness_changed hash disk s = L1
    generalize staleness_added disk s = L2
    generalize staleness_removed disk s = L3
    rcases L1 with _ | ⟨a, l⟩ <;> rcases L2 with _ | ⟨b, m⟩ <;>
      rcases L3 with _ | ⟨c, n⟩ <;> simp

/-- Concrete hash function and store for the staleness witness: one stored
file `a.py` with hash `old`; on disk `a.py` now hashes to `new` and `b.py`
is new. -/
def w5_hash (c : String) : String := c

def w5_store : Store :=
  { files := [{ id := 1, path := "a.py", hash := "old", size := 1 }],
    definitions := [], refs := [], imports := [], decorators := [],
    class_bases := [], calls := [],
    files_next := 2, definitions_next := 1, refs_next := 1, imports_next := 1,
    decorators_next := 1, class_bases_next := 1, calls_next := 1 }

/-- Witness for C5 at a concrete store and disk. -/
theorem check_staleness_correct_witness :
    ((w5_store.files.map (·.path)).Nodup) ∧
    ((∀ p c, (p, c) ∈ [("a.py", "new"), ("b.py", "x")] →
        ∀ f ∈ w5_store.files, f.path = p → w5_hash c ≠ f.hash →
        p ∈ (check_staleness w5_hash [("a.py", "new"), ("b.py", "x")] w5_store).1.changed) ∧
      (∀ p c, (p, c) ∈ [("a.py", "new"), ("b.py", "x")] →
        (∀ f ∈ w5_store.files, f.path ≠ p) →
        p ∈ (check_staleness w5_hash [("a.py", "new"), ("b.py", "x")] w5_store).1.added) ∧
      (∀ f ∈ w5_store.files, (∀ pc ∈ [(("a.py" : String), ("new" : String)), ("b.py", "x")], pc.1 ≠ f.path) →
        f.path ∈ (check_staleness w5_hash [("a.py", "new"), ("b.py", "x")] w5_store).1.removed) ∧
      (∀ p, p ∈ (check_staleness w5_hash [("a.py", "new"), ("b.py", "x")] w5_store).1.changed →
        p ∉ (check_staleness w5_hash [("a.py", "new"), ("b.py", "x")] w5_store).1.added) ∧
      (∀ p, p ∈ (check_staleness w5_hash [("a.py", "new"), ("b.py", "x")] w5_store).1.changed →
        p ∉ (check_staleness w5_hash [("a.py", "new"), ("b.py", "x")] w5_store).1.removed) ∧
      (∀ p, p ∈ (check_staleness w5_hash [("a.py", "new"), ("b.py", "x")] w5_store).1.added →
        p ∉ (check_staleness w5_hash [("a.py", "new"), ("b.py", "x")] w5_store).1.removed) ∧
      ((check_staleness w5_hash [("a.py", "new"), ("b.py", "x")] w5_store).1.is_stale = true ↔
        ¬ ((check_staleness w5_hash [("a.py", "new"), ("b.py", "x")] w5_store).1.changed = [] ∧
           (check_staleness w5_hash [("a.py", "new"), ("b.py", "x")] w5_store).1.added = [] ∧
           (check_staleness w5_hash [("a.py", "new"), ("b.py", "x")] w5_store).1.removed = []))) :=
  ⟨by decide,
    check_staleness_correct w5_hash [("a.py", "new"), ("b.py", "x")] w5_store (by decide)⟩

/-! ## C1: innermost-caller uniqueness of the rebuilt call graph -/

/-- A reference is a call reference at the same source position as `r`. -/
def atCall (r r2 : RefRow) : Bool :=
  r2.is_call && r2.file_id == r.file_id && r2.line == r.line && r2.column == r.column

/-- A calls row sits at `r`'s source position. -/
def atPos (r : RefRow) (c : CallRow) : Bool :=
  c.file_id == r.file_id && c.line == r.line && c.column == r.column

theorem gen_call_eq_some (defs : List DefRow) (r : RefRow) (c : CallRow)
    (h : gen_call defs r = some c) :
    r.is_call = true ∧ c.file_id = r.file_id ∧ c.line = r.line ∧
    c.column = r.column ∧
    ∃ d, pickMinBy (fun a b => defRange a < defRange b) (defs.filter (encloses r))
        = some d ∧ c.caller_id = some d.id := by
  unfold gen_call at h
  by_cases hcall : r.is_call = true
  · rw [if_pos hcall] at h
    rcases hpick : pickMinBy (fun a b => defRange a < defRange b)
        (defs.filter (encloses r)) with _ | d
    · rw [hpick] at h
      simp at h
    · rw [hpick] at h
      simp only [Option.map_some', Option.some.injEq] at h
      subst h
      exact ⟨hcall, rfl, rfl, rfl, d, rfl, rfl⟩
  · rw [if_neg hcall] at h
    simp at h

theorem renumberCalls_filter_length (P : CallRow → Bool)
    (hP : ∀ c n, P { c with id := n } = P c) :
    ∀ (n : Nat) (l : List CallRow),
      ((renumberCalls n l).filter P).length = (l.filter P).length := by
  intro n l
  induction l generalizing n with
  | nil => rfl
  | cons c cs ih =>
    simp only [renumberCalls, List.filter_cons, hP c n]
    by_cases hc : P c = true
    · simp only [hc, if_true, List.length_cons, ih]
    · rw [Bool.not_eq_true] at hc
      simp only [hc, Bool.false_eq_true, if_false, ih]

theorem renumberCalls_filter_mem (P : CallRow → Bool)
    (hP : ∀ c n, P { c with id := n } = P c) :
    ∀ (n : Nat) (l : List CallRow) (c : CallRow),
      c ∈ (renumberCalls n l).filter P →
      ∃ c2 ∈ l.filter P, c = { c2 with id := c.id } := by
  intro n l
  induction l generalizing n with
  | nil => simp [renumberCalls]
  | cons d ds ih =>
    intro c hc
    simp only [renumberCalls, List.filter_cons, hP d n] at hc ⊢
    by_cases hd : P d = true
    · rw [hd] at hc ⊢
      simp only [if_true] at hc ⊢
      rcases List.mem_cons.mp hc with rfl | hc2
      · exact ⟨d, List.mem_cons_self d _, rfl⟩
      · obtain ⟨c2, hc2m, hc2e⟩ := ih (n + 1) c hc2
        exact ⟨c2, List.mem_cons.mpr (Or.inr hc2m), hc2e⟩
    · rw [Bool.not_eq_true] at hd
      rw [hd] at hc ⊢
      simp only [Bool.false_eq_true, if_false] at hc ⊢
      exact ih (n + 1) c hc

theorem filter_atPos_filterMap (defs : List DefRow) (r : RefRow) :
    ∀ refs : List RefRow,
      (refs.filterMap (gen_call defs)).filter (atPos r)
        = (refs.filter (atCall r)).filterMap (gen_call defs) := by
  intro refs
  induction refs with
  | nil => rfl
  | cons r2 rest ih =>
    rcases hg : gen_call defs r2 with _ | c
    · simp only [List.filterMap_cons, hg, List.filter_cons]
      by_cases ha : atCall r r2 = true
      · simp only [ha, if_true, List.filterMap_cons, hg, ih]
      · rw [Bool.not_eq_true] at ha
        simp only [ha, Bool.false_eq_true, if_false, ih]
    · have hfields := gen_call_eq_some defs r2 c hg
      have hpos : atPos r c = atCall r r2 := by
        rw [atPos, atCall, hfields.1, hfields.2.1, hfields.2.2.1, hfields.2.2.2.1]
        simp
      simp only [List.filterMap_cons, hg, List.filter_cons, hpos]
      by_cases ha : atCall r r2 = true
      · simp only [ha, if_true, List.filterMap_cons, hg, ih]
      · rw [Bool.not_eq_true] at ha
        simp only [ha, Bool.false_eq_true, if_false, ih]

/-- C1 (amended): after `build_call_graph`, a call reference that has at
least one enclosing function/class definition in its file (and is the only
call reference at its position) yields exactly one Call row at its
file/line/col, whose `caller_id` is an enclosing definition of minimal
`COALESCE(end_line, 999999) − line` range; a call reference with no such
enclosing definition yields no row. -/
theorem build_call_graph_innermost (s : Store) (r : RefRow)
    (hc : r.is_call = true)
    (hencl : s.definitions.filter (encloses r) ≠ [])
    (huniq : s.refs.filter (atCall r) = [r]) :
    ∃ c d, ((build_call_graph s).calls.filter (atPos r)) = [c] ∧
      c.caller_id = some d.id ∧ d ∈ s.definitions ∧ encloses r d = true ∧
      ∀ d2 ∈ s.definitions, encloses r d2 = true → defRange d ≤ defRange d2 := by
  obtain ⟨d0, hd0⟩ := pickMinBy_isSome (fun a b => decide (defRange a < defRange b))
    (s.definitions.filter (encloses r)) hencl
  have hP : ∀ (c : CallRow) (n : Nat), atPos r { c with id := n } = atPos r c :=
    fun c n => rfl
  have hfm : ((s.refs.filterMap (gen_call s.definitions)).filter (atPos r))
      = (s.refs.filter (atCall r)).filterMap (gen_call s.definitions) :=
    filter_atPos_filterMap s.definitions r s.refs
  have hgen : ∃ c0, gen_call s.definitions r = some c0 := by
    unfold gen_call
    rw [if_pos hc, hd0]
    exact ⟨_, rfl⟩
  obtain ⟨c0, hc0⟩ := hgen
  have hsingle : (s.refs.filterMap (gen_call s.definitions)).filter (atPos r) = [c0] := by
    rw [hfm, huniq]
    simp [List.filterMap_cons, hc0]
  have hcalls : (build_call_graph s).calls
      = renumberCalls s.calls_next (s.refs.filterMap (gen_call s.definitions)) := rfl
  have hlen : (((build_call_graph s).calls).filter (atPos r)).length = 1 := by
    rw [hcalls, renumberCalls_filter_length (atPos r) hP, hsingle]
    rfl
  obtain ⟨c, hcs⟩ := List.length_eq_one.mp hlen
  have hcmem : c ∈ ((build_call_graph s).calls).filter (atPos r) := by
    rw [hcs]
    exact List.mem_cons_self c []
  rw [hcalls] at hcmem
  obtain ⟨c2, hc2m, hc2e⟩ := renumberCalls_filter_mem (atPos r) hP _ _ c hcmem
  rw [hsingle] at hc2m
  have hc2eq : c2 = c0 := by simpa using hc2m
  have hfields := gen_call_eq_some s.definitions r c0 hc0
  obtain ⟨_, _, _, _, d, hpick, hcaller⟩ := hfields
  have hdd0 : d = d0 := by
    rw [hd0] at hpick
    exact (Option.some.inj hpick).symm
  subst hdd0
  have hdmem := pickMinBy_mem _ _ _ hd0
  rw [List.mem_filter] at hdmem
  refine ⟨c, d, hcs, ?caller, hdmem.1, hdmem.2, ?min⟩
  case caller =>
    have h1 : c.caller_id = c2.caller_id := by rw [hc2e]
    rw [h1, hc2eq]
    exact hcaller
  case min =>
    intro d2 hd2 hd2e
    have hd2f : d2 ∈ s.definitions.filter (encloses r) :=
      List.mem_filter.mpr ⟨hd2, hd2e⟩
    have hmin := pickMinBy_min _ (fun a => by simp)
      (fun a b cc h1 h2 => by simp at h1 h2 ⊢; omega)
      (fun a b cc h1 h2 => by
        rw [Bool.eq_false_iff] at h1 h2 ⊢
        simp at h1 h2 ⊢
        omega)
      _ _ hd0 d2 hd2f
    simp at hmin
    exact hmin

/-- A call reference at module level: no enclosing function/class. -/
def cx1_ref : RefRow :=
  { id := 1, file_id := 1, definition_id := none, name := "print",
    line := 1, column := 0, context := none, target_full_name := none,
    target_module_path := none, is_call := true, call_order := 1, call_depth := 1 }

def cx1_store : Store :=
  { files := [{ id := 1, path := "a.py", hash := "h", size := 1 }],
    definitions := [], refs := [cx1_ref], imports := [], decorators := [],
    class_bases := [], calls := [],
    files_next := 2, definitions_next := 1, refs_next := 2, imports_next := 1,
    decorators_next := 1, class_bases_next := 1, calls_next := 1 }

/-- C1 counterexample: a call reference with no enclosing function/class
definition (a module-level call) produces no Call row at all — the rebuild
joins references against enclosing definitions with an inner join — so the
record set does not contain exactly one row for this call reference. -/
theorem build_call_graph_toplevel_call_cx :
    cx1_ref ∈ cx1_store.refs ∧ cx1_ref.is_call = true ∧
    (build_call_graph cx1_store).calls = [] := by
  decide

/-- Nested scopes for the C1 witness: a class spanning lines 1–9 and a
method spanning lines 2–4; the call at line 3 must get the method, the
smaller range, as caller. -/
def w1_outer : DefRow :=
  { id := 1, file_id := 1, name := "User", full_name := some "m.User",
    type := "class", line := 1, column := 0, end_line := some 9,
    end_column := none, signature := none, docstring := none,
    parent_id := none, parent_full_name := none, is_public := true,
    search_text := none }

def w1_inner : DefRow :=
  { id := 2, file_id := 1, name := "run", full_name := some "m.User.run",
    type := "function", line := 2, column := 4, end_line := some 4,
    end_column := none, signature := none, docstring := none,
    parent_id := none, parent_full_name := some "m.User", is_public := true,
    search_text := none }

def w1_ref : RefRow :=
  { id := 1, file_id := 1, definition_id := none, name := "helper",
    line := 3, column := 8, context := none,
    target_full_name := some "m.helper", target_module_path := none,
    is_call := true, call_order := 1, call_depth := 1 }

def w1_store : Store :=
  { files := [{ id := 1, path := "a.py", hash := "h", size := 1 }],
    definitions := [w1_outer, w1_inner], refs := [w1_ref], imports := [],
    decorators := [], class_bases := [], calls := [],
    files_next := 2, definitions_next := 3, refs_next := 2, imports_next := 1,
    decorators_next := 1, class_bases_next := 1, calls_next := 1 }

/-- Witness for the C1 amended theorem at a concrete nested-scope store. -/
theorem build_call_graph_innermost_witness :
    w1_ref.is_call = true ∧
    w1_store.definitions.filter (encloses w1_ref) ≠ [] ∧
    w1_store.refs.filter (atCall w1_ref) = [w1_ref] ∧
    (∃ c d, ((build_call_graph w1_store).calls.filter (atPos w1_ref)) = [c] ∧
      c.caller_id = some d.id ∧ d ∈ w1_store.definitions ∧
      encloses w1_ref d = true ∧
      ∀ d2 ∈ w1_store.definitions, encloses w1_ref d2 = true →
        defRange d ≤ defRange d2) :=
  ⟨by decide, by decide, by decide,
    build_call_graph_innermost w1_store w1_ref (by decide) (by decide) (by decide)⟩

/-! ## C4: idempotence of the full re-index

The invariant the schema maintains on the `files` record set: unique paths
(`UNIQUE` constraint), unique ids (primary key), and a sequence value above
every present id. -/

def FilesInv (s : Store) : Prop :=
  (s.files.map (·.path)).Nodup ∧ (s.files.map (·.id)).Nodup ∧
    ∀ f ∈ s.files, f.id < s.files_next

theorem delete_file_files (s : Store) (fid : Nat) :
    (delete_file s fid).files = s.files.filter (fun f => ! (f.id == fid)) := rfl

theorem delete_file_files_next (s : Store) (fid : Nat) :
    (delete_file s fid).files_next = s.files_next := rfl

theorem delete_file_by_path_files_next (s : Store) (p : String) :
    (delete_file_by_path s p).files_next = s.files_next := by
  unfold delete_file_by_path
  cases s.files.find? fun f => f.path == p <;> rfl

theorem delete_file_by_path_files (s : Store) (p : String)
    (hpaths : (s.files.map (·.path)).Nodup) (hids : (s.files.map (·.id)).Nodup) :
    (delete_file_by_path s p).files = s.files.filter (fun f => ! (f.path == p)) := by
  rcases hfind : s.files.find? fun f => f.path == p with _ | f0
  · have h0 : delete_file_by_path s p = s := by
      unfold delete_file_by_path
      rw [hfind]
    rw [h0]
    refine (List.filter_eq_self.mpr ?_).symm
    intro f hf
    have h1 := List.find?_eq_none.mp hfind f hf
    rw [Bool.not_eq_true] at h1
    rw [h1]
    rfl
  · have h0 : delete_file_by_path s p = delete_file s f0.id := by
      unfold delete_file_by_path
      rw [hfind]
    have hf0mem : f0 ∈ s.files := List.mem_of_find?_eq_some hfind
    have hf0p : f0.path = p := by simpa using List.find?_some hfind
    rw [h0, delete_file_files]
    refine List.filter_congr ?_
    intro f hf
    by_cases hid : f.id = f0.id
    · have hff : f = f0 := List.inj_on_of_nodup_map hids hf hf0mem hid
      subst hff
      simp [hf0p]
    · have hpf : f.path ≠ p := by
        intro hpf
        refine hid ?_
        have hff : f = f0 := List.inj_on_of_nodup_map hpaths hf hf0mem (by rw [hpf, hf0p])
        rw [hff]
      simp [hid, hpf]

theorem filesInv_delete_file_by_path (s : Store) (p : String) (h : FilesInv s) :
    FilesInv (delete_file_by_path s p) := by
  obtain ⟨h1, h2, h3⟩ := h
  have hfil := delete_file_by_path_files s p h1 h2
  refine ⟨?paths, ?ids, ?next⟩
  case paths =>
    rw [hfil]
    exact h1.sublist ((List.filter_sublist _).map _)
  case ids =>
    rw [hfil]
    exact h2.sublist ((List.filter_sublist _).map _)
  case next =>
    intro f hf
    rw [delete_file_by_path_files_next]
    rw [hfil] at hf
    exact h3 f ((List.filter_sublist _).mem hf)

theorem index_one_files (hash : String → String) (analyze : String → Analysis)
    (p c : String) (s : Store)
    (hpaths : (s.files.map (·.path)).Nodup) (hids : (s.files.map (·.id)).Nodup) :
    (index_one hash analyze p c s).files
      = s.files.filter (fun f => ! (f.path == p)) ++
        [{ id := s.files_next, path := p, hash := hash c, size := c.length }] := by
  have h1 : (index_one hash analyze p c s).files
      = (delete_file_by_path s p).files ++
        [{ id := (delete_file_by_path s p).files_next, path := p,
           hash := hash c, size := c.length }] := rfl
  rw [h1, delete_file_by_path_files s p hpaths hids, delete_file_by_path_files_next]

theorem index_one_files_next (hash : String → String) (analyze : String → Analysis)
    (p c : String) (s : Store) :
    (index_one hash analyze p c s).files_next = s.files_next + 1 := by
  have h1 : (index_one hash analyze p c s).files_next
      = (delete_file_by_path s p).files_next + 1 := rfl
  rw [h1, delete_file_by_path_files_next]

theorem filesInv_index_one (hash : String → String) (analyze : String → Analysis)
    (p c : String) (s : Store) (h : FilesInv s) :
    FilesInv (index_one hash analyze p c s) := by
  obtain ⟨h1, h2, h3⟩ := h
  have hfil := index_one_files hash analyze p c s h1 h2
  have hsub : (s.files.filter (fun f => ! (f.path == p))).Sublist s.files :=
    List.filter_sublist _
  refine ⟨?paths, ?ids, ?next⟩
  case paths =>
    rw [hfil, List.map_append, List.nodup_append]
    refine ⟨h1.sublist (hsub.map _), by simp, ?_⟩
    intro q hq hq2
    simp only [List.map_cons, List.map_nil, List.mem_singleton] at hq2
    subst hq2
    obtain ⟨f, hf, hfp⟩ := List.mem_map.mp hq
    have := (List.mem_filter.mp hf).2
    simp [hfp] at this
  case ids =>
    rw [hfil, List.map_append, List.nodup_append]
    refine ⟨h2.sublist (hsub.map _), by simp, ?_⟩
    intro i hi hi2
    simp only [List.map_cons, List.map_nil, List.mem_singleton] at hi2
    subst hi2
    obtain ⟨f, hf, hfi⟩ := List.mem_map.mp hi
    have hlt := h3 f (hsub.mem hf)
    omega
  case next =>
    intro f hf
    rw [index_one_files_next]
    rw [hfil] at hf
    rcases List.mem_append.mp hf with hf1 | hf1
    · have := h3 f (hsub.mem hf1)
      omega
    · simp only [List.mem_singleton] at hf1
      subst hf1
      simp

theorem reindex_all_files (hash : String → String) (analyze : String → Analysis) :
    ∀ (disk : List (String × String)) (s : Store), FilesInv s →
      (disk.map Prod.fst).Nodup →
      FilesInv (reindex_all hash analyze disk s) ∧
      (∀ pc ∈ disk, ∃ f ∈ (reindex_all hash analyze disk s).files,
        f.path = pc.1 ∧ f.hash = hash pc.2) ∧
      (∀ f ∈ (reindex_all hash analyze disk s).files,
        f.path ∈ disk.map Prod.fst →
        ∃ pc ∈ disk, pc.1 = f.path ∧ f.hash = hash pc.2) ∧
      (∀ f ∈ (reindex_all hash analyze disk s).files,
        f.path ∉ disk.map Prod.fst → f ∈ s.files) ∧
      (∀ f ∈ s.files, f.path ∉ disk.map Prod.fst →
        f ∈ (reindex_all hash analyze disk s).files) := by
  intro disk
  induction disk with
  | nil =>
    intro s hinv _
    exact ⟨hinv, by simp, by simp [reindex_all], by simp [reindex_all],
      by simp [reindex_all]⟩
  | cons pc rest ih =>
    intro s hinv hnd
    obtain ⟨hp_rest, hp_notin⟩ : (rest.map Prod.fst).Nodup ∧ pc.1 ∉ rest.map Prod.fst := by
      rw [List.map_cons, List.nodup_cons] at hnd
      exact ⟨hnd.2, hnd.1⟩
    set s2 := index_one hash analyze pc.1 pc.2 s with hs2
    have hinv2 : FilesInv s2 := filesInv_index_one hash analyze pc.1 pc.2 s hinv
    have hshape := index_one_files hash analyze pc.1 pc.2 s hinv.1 hinv.2.1
    obtain ⟨ihInv, ih2, ih3, ih4, ih5⟩ := ih s2 hinv2 hp_rest
    have hstep : reindex_all hash analyze (pc :: rest) s
        = reindex_all hash analyze rest s2 := rfl
    have hnewmem : ({ id := s.files_next, path := pc.1, hash := hash pc.2, size := pc.2.length } : FileRow) ∈ s2.files := by
      rw [hs2, hshape]
      simp
    refine ⟨by rw [hstep]; exact ihInv, ?c2, ?c3, ?c4, ?c5⟩
    case c2 =>
      intro pc2 hpc2
      rw [hstep]
      rcases List.mem_cons.mp hpc2 with rfl | hpc2r
      · refine ⟨{ id := s.files_next, path := pc2.1, hash := hash pc2.2, size := pc2.2.length }, ?_, rfl, rfl⟩
        exact ih5 _ hnewmem (by simpa using hp_notin)
      · exact ih2 pc2 hpc2r
    case c3 =>
      intro f hf hpath
      rw [hstep] at hf
      rcases List.mem_map.mp hpath with ⟨pc2, hpc2, hpc2e⟩
      by_cases hin : f.path ∈ rest.map Prod.fst
      · obtain ⟨pc3, hpc3, hpc3e⟩ := ih3 f hf hin
        exact ⟨pc3, List.mem_cons.mpr (Or.inr hpc3), hpc3e⟩
      · have hfs2 : f ∈ s2.files := ih4 f hf hin
        rw [hs2, hshape] at hfs2
        rcases List.mem_append.mp hfs2 with hf1 | hf1
        · have hcond := (List.mem_filter.mp hf1).2
          rcases List.mem_cons.mp hpc2 with rfl | hpc2r
          · rw [hpc2e] at hcond
            simp at hcond
          · exact absurd (hpc2e ▸ List.mem_map_of_mem Prod.fst hpc2r) hin
        · simp only [List.mem_singleton] at hf1
          subst hf1
          exact ⟨pc, List.mem_cons_self pc rest, rfl, rfl⟩
    case c4 =>
      intro f hf hnotin
      rw [hstep] at hf
      have hnr : f.path ∉ rest.map Prod.fst := by
        intro hc
        exact hnotin (List.mem_cons.mpr (Or.inr hc))
      have hfs2 : f ∈ s2.files := ih4 f hf hnr
      rw [hs2, hshape] at hfs2
      rcases List.mem_append.mp hfs2 with hf1 | hf1
      · exact (List.filter_sublist _).mem hf1
      · simp only [List.mem_singleton] at hf1
        subst hf1
        refine absurd ?_ hnotin
        rw [List.map_cons]
        exact List.mem_cons.mpr (Or.inl rfl)
    case c5 =>
      intro f hf hnotin
      rw [hstep]
      have hne : f.path ≠ pc.1 := by
        intro hc
        exact hnotin (by rw [List.map_cons]; exact List.mem_cons.mpr (Or.inl hc))
      have hnr : f.path ∉ rest.map Prod.fst := by
        intro hc
        exact hnotin (List.mem_cons.mpr (Or.inr hc))
      have hfs2 : f ∈ s2.files := by
        rw [hs2, hshape]
        refine List.mem_append.mpr (Or.inl ?_)
        refine List.mem_filter.mpr ⟨hf, ?_⟩
        simp [hne]
      exact ih5 f hfs2 hnr

theorem cleanup_go_spec (indexed : List String) :
    ∀ (qs : List String) (s : Store) (k : Nat), FilesInv s →
      FilesInv (cleanup_go indexed qs (s, k)).1 ∧
      (∀ f ∈ (cleanup_go indexed qs (s, k)).1.files, f ∈ s.files) ∧
      (∀ f ∈ s.files, f.path ∈ indexed → f ∈ (cleanup_go indexed qs (s, k)).1.files) ∧
      (∀ f ∈ (cleanup_go indexed qs (s, k)).1.files, f.path ∈ qs → f.path ∈ indexed) := by
  intro qs
  induction qs with
  | nil =>
    intro s k hinv
    exact ⟨hinv, fun f hf => hf, fun f hf _ => hf, by simp⟩
  | cons q qs ih =>
    intro s k hinv
    by_cases hq : indexed.contains q = true
    · have hstep : cleanup_go indexed (q :: qs) (s, k) = cleanup_go indexed qs (s, k) := by
        show cleanup_go indexed qs
          (if indexed.contains q = true then (s, k)
           else (delete_file_by_path s q, k + 1)) = _
        rw [if_pos hq]
      rw [hstep]
      obtain ⟨i1, i2, i3, i4⟩ := ih s k hinv
      refine ⟨i1, i2, i3, ?_⟩
      intro f hf hfq
      rcases List.mem_cons.mp hfq with hfq1 | hfq2
      · rw [hfq1]
        simpa using hq
      · exact i4 f hf hfq2
    · have hq2 : indexed.contains q = false := Bool.not_eq_true _ ▸ Bool.eq_false_iff.mpr hq
      have hstep : cleanup_go indexed (q :: qs) (s, k)
          = cleanup_go indexed qs (delete_file_by_path s q, k + 1) := by
        show cleanup_go indexed qs
          (if indexed.contains q = true then (s, k)
           else (delete_file_by_path s q, k + 1)) = _
        rw [if_neg hq]
      have hinv3 : FilesInv (delete_file_by_path s q) :=
        filesInv_delete_file_by_path s q hinv
      have hfil : (delete_file_by_path s q).files
          = s.files.filter (fun f => ! (f.path == q)) :=
        delete_file_by_path_files s q hinv.1 hinv.2.1
      obtain ⟨i1, i2, i3, i4⟩ := ih (delete_file_by_path s q) (k + 1) hinv3
      rw [hstep]
      refine ⟨i1, ?_, ?_, ?_⟩
      · intro f hf
        have := i2 f hf
        rw [hfil] at this
        exact (List.filter_sublist _).mem this
      · intro f hf hfi
        have hne : f.path ≠ q := by
          intro hc
          rw [hc] at hfi
          have : indexed.contains q = true := by
            rw [List.contains_iff_exists_mem_beq]
            exact ⟨q, hfi, by simp⟩
          rw [this] at hq2
          exact Bool.true_eq_false ▸ hq2
        refine i3 f ?_ hfi
        rw [hfil]
        refine List.mem_filter.mpr ⟨hf, ?_⟩
        simp [hne]
      · intro f hf hfq
        rcases List.mem_cons.mp hfq with hfq1 | hfq2
        · exfalso
          have hmem := i2 f hf
          rw [hfil] at hmem
          have := (List.mem_filter.mp hmem).2
          rw [hfq1] at this
          simp at this
        · exact i4 f hf hfq2

theorem cleanup_files (indexed : List String) (s : Store) (hinv : FilesInv s) :
    FilesInv (cleanup indexed s).1 ∧
    (∀ f ∈ (cleanup indexed s).1.files, f ∈ s.files ∧ f.path ∈ indexed) ∧
    (∀ f ∈ s.files, f.path ∈ indexed → f ∈ (cleanup indexed s).1.files) := by
  obtain ⟨i1, i2, i3, i4⟩ := cleanup_go_spec indexed (s.files.map (·.path)) s 0 hinv
  refine ⟨i1, ?c2, i3⟩
  intro f hf
  refine ⟨i2 f hf, i4 f hf ?_⟩
  exact List.mem_map_of_mem _ (i2 f hf)

theorem populate_parent_ids_files (s : Store) :
    (populate_parent_ids s).files = s.files := rfl

theorem build_call_graph_files (s : Store) :
    (build_call_graph s).files = s.files := rfl

/-- The stats-and-skip branch of `index` when nothing is stale. -/
theorem index_skip (hash : String → String) (analyze : String → Analysis)
    (resolve_refs : Bool) (disk : List (String × String)) (X : Store)
    (h : (check_staleness hash disk X).1.is_stale = false) :
    index hash analyze resolve_refs disk false X
      = ({ files_indexed := 0, files_skipped := disk.length, files_removed := 0,
           definitions_added := 0, references_added := 0, imports_added := 0,
           decorators_added := 0, class_bases_added := 0,
           index_skipped := true }, X) := by
  unfold index
  have hc : (! false && ! (check_staleness hash disk X).1.is_stale) = true := by
    rw [h]
    rfl
  rw [if_pos hc]

/-- In the re-index branch, the final `files` record set is the one cleanup
leaves: parent-link population and the call-graph rebuild touch no file
row. -/
theorem index_files_else (hash : String → String) (analyze : String → Analysis)
    (resolve_refs : Bool) (disk : List (String × String)) (X : Store)
    (h : (check_staleness hash disk X).1.is_stale = true) :
    (index hash analyze resolve_refs disk false X).2.files
      = (cleanup (disk.map (·.1)) (reindex_all hash analyze disk X)).1.files := by
  unfold index
  have hc : (! false && ! (check_staleness hash disk X).1.is_stale) = false := by
    rw [h]
    rfl
  rw [if_neg (by rw [hc]; exact Bool.false_ne_true)]
  dsimp only
  split
  · split <;> rfl
  · rfl

theorem index_not_stale_after (hash : String → String) (analyze : String → Analysis)
    (resolve_refs : Bool) (disk : List (String × String)) (s : Store)
    (hinv : FilesInv s) (hd : (disk.map Prod.fst).Nodup) :
    (check_staleness hash disk
        (index hash analyze resolve_refs disk false s).2).1.is_stale = false := by
  rcases hstale : (check_staleness hash disk s).1.is_stale with _ | _
  · rw [index_skip hash analyze resolve_refs disk s hstale]
    exact hstale
  · have hfe := index_files_else hash analyze resolve_refs disk s hstale
    set Y := (index hash analyze resolve_refs disk false s).2 with hY
    obtain ⟨rInv, r2, r3, r4, r5⟩ := reindex_all_files hash analyze disk s hinv hd
    obtain ⟨cInv, c2, c3⟩ :=
      cleanup_files (disk.map (·.1)) (reindex_all hash analyze disk s) rInv
    have hYsub : ∀ f ∈ Y.files,
        f ∈ (reindex_all hash analyze disk s).files ∧ f.path ∈ disk.map (·.1) := by
      intro f hf
      rw [hfe] at hf
      exact c2 f hf
    have hYin : ∀ pc ∈ disk, ∃ f ∈ Y.files, f.path = pc.1 ∧ f.hash = hash pc.2 := by
      intro pc hpc
      obtain ⟨f, hf, hfp, hfh⟩ := r2 pc hpc
      refine ⟨f, ?_, hfp, hfh⟩
      rw [hfe]
      refine c3 f hf ?_
      rw [hfp]
      exact List.mem_map_of_mem _ hpc
    have hYhash : ∀ f ∈ Y.files, ∀ pc ∈ disk, f.path = pc.1 → f.hash = hash pc.2 := by
      intro f hf pc hpc hfp
      obtain ⟨hfr, hfd⟩ := hYsub f hf
      obtain ⟨pc3, hpc3, hpc3p, hpc3h⟩ := r3 f hfr hfd
      have hpcs : pc3 = pc := by
        refine List.inj_on_of_nodup_map hd hpc3 hpc ?_
        show pc3.1 = pc.1
        rw [hpc3p, hfp]
      rw [hpc3h, hpcs]
    have hchg : staleness_changed hash disk Y = [] := by
      rw [staleness_changed, List.filterMap_eq_nil_iff]
      intro pc hpc
      rcases hfind : (db_files Y).find? fun q => q.1 == pc.1 with _ | q
      · rw [hfind]
      · rw [hfind]
        have hq := List.mem_of_find?_eq_some hfind
        have hqp : q.1 = pc.1 := by simpa using List.find?_some hfind
        obtain ⟨f, hfY, hfq⟩ := List.mem_map.mp hq
        have hfp : f.path = pc.1 := by
          rw [← hfq] at hqp
          simpa using hqp
        have hfh := hYhash f hfY pc hpc hfp
        have hbeq : (hash pc.2 == q.2) = true := by
          rw [← hfq]
          show (hash pc.2 == f.hash) = true
          rw [hfh]
          simp
        simp [hbeq]
    have hadd : staleness_added disk Y = [] := by
      rw [staleness_added, List.filterMap_eq_nil_iff]
      intro pc hpc
      rcases hfind : (db_files Y).find? fun q => q.1 == pc.1 with _ | q
      · exfalso
        obtain ⟨f, hfY, hfp, _⟩ := hYin pc hpc
        have := List.find?_eq_none.mp hfind (f.path, f.hash)
          (List.mem_map_of_mem _ hfY)
        simp [hfp] at this
      · rw [hfind]
    have hrem : staleness_removed disk Y = [] := by
      rw [staleness_removed, List.filter_eq_nil_iff]
      intro x hx
      obtain ⟨q, hq, hq1⟩ := List.mem_map.mp hx
      obtain ⟨f, hfY, hfq⟩ := List.mem_map.mp hq
      have hfd := (hYsub f hfY).2
      have hxf : x = f.path := by
        rw [← hq1, ← hfq]
      obtain ⟨pc, hpc, hpcp⟩ := List.mem_map.mp hfd
      simp
      refine ⟨pc.2, ?_⟩
      rw [hxf, ← hpcp]
      simpa using hpc
    show (! (staleness_changed hash disk Y).isEmpty ||
      ! (staleness_added disk Y).isEmpty ||
      ! (staleness_removed disk Y).isEmpty) = false
    rw [hchg, hadd, hrem]
    rfl

/-- C4: running the full re-index twice with an unchanged disk leaves the
second run a no-op: the store is returned unchanged (so every record set has
identical row counts) and the second run reports zero files indexed, all
discovered files skipped, and `index_skipped`. -/
theorem index_idempotent (hash : String → String) (analyze : String → Analysis)
    (resolve_refs : Bool) (disk : List (String × String)) (s : Store)
    (hinv : FilesInv s) (hd : (disk.map Prod.fst).Nodup) :
    (index hash analyze resolve_refs disk false
        (index hash analyze resolve_refs disk false s).2).2
      = (index hash analyze resolve_refs disk false s).2 ∧
    (index hash analyze resolve_refs disk false
        (index hash analyze resolve_refs disk false s).2).1.files_indexed = 0 ∧
    (index hash analyze resolve_refs disk false
        (index hash analyze resolve_refs disk false s).2).1.files_skipped
      = disk.length ∧
    (index hash analyze resolve_refs disk false
        (index hash analyze resolve_refs disk false s).2).1.index_skipped = true := by
  have hns := index_not_stale_after hash analyze resolve_refs disk s hinv hd
  rw [index_skip hash analyze resolve_refs disk _ hns]
  exact ⟨rfl, rfl, rfl, rfl⟩

/-- Concrete inputs for the idempotence witness: an identity hash, an
analyzer that extracts one decorated function with a call reference and an
import, one file on disk, and an empty starting store. -/
def w4_hash (c : String) : String := c

def w4_dp : DefPayload :=
  { name := "run", full_name := some "a.run", type := "function", line := 2,
    column := 0, end_line := some 4, end_column := none, signature := none,
    docstring := none, parent_full_name := none, is_public := true,
    search_text := some "run" }

def w4_rp : RefPayload :=
  { name := "helper", line := 3, column := 4, context := some "helper()",
    target_full_name := some "a.run", target_module_path := none,
    is_call := true, call_order := 1, call_depth := 1 }

def w4_ip : ImpPayload :=
  { module := "os", name := none, alias_ := none, line := 1 }

def w4_decp : DecPayload :=
  { name := "cached", owner_full_name := some "a.run", arguments := none,
    line := 1 }

def w4_analyze (_c : String) : Analysis :=
  { definitions := [w4_dp], references := [w4_rp], imports := [w4_ip],
    decorators := [w4_decp], class_bases := [] }

def w4_disk : List (String × String) := [("a.py", "src")]

def w4_s0 : Store :=
  { files := [], definitions := [], refs := [], imports := [],
    decorators := [], class_bases := [], calls := [],
    files_next := 1, definitions_next := 1, refs_next := 1, imports_next := 1,
    decorators_next := 1, class_bases_next := 1, calls_next := 1 }

/-- Witness for C4 at a concrete one-file project. -/
theorem index_idempotent_witness :
    (index w4_hash w4_analyze true w4_disk false
        (index w4_hash w4_analyze true w4_disk false w4_s0).2).2
      = (index w4_hash w4_analyze true w4_disk false w4_s0).2 ∧
    (index w4_hash w4_analyze true w4_disk false
        (index w4_hash w4_analyze true w4_disk false w4_s0).2).1.files_indexed = 0 ∧
    (index w4_hash w4_analyze true w4_disk false
        (index w4_hash w4_analyze true w4_disk false w4_s0).2).1.files_skipped
      = w4_disk.length ∧
    (index w4_hash w4_analyze true w4_disk false
        (index w4_hash w4_analyze true w4_disk false w4_s0).2).1.index_skipped = true :=
  index_idempotent w4_hash w4_analyze true w4_disk w4_s0
    (by exact ⟨by decide, by decide, by decide⟩) (by decide)

end JediDB
